import Mathlib

/-!
# fcheck: a consistency checker for xv6 file-system images

A shallow embedding of `fcheck.c` and the properties of its three implemented
checks (`check_inode_types`, `check_root`, `check_dir_format`) and of the two
lookup routines `traverseDir` and `checkDirOfInode`.

## Modelling conventions

* The address space of the process maps absolute addresses to bytes (`State.mem`);
  an address at which nothing is mapped cannot be read, and a `memmove` that touches
  such an address ends the run with `Outcome.fault`.
* The image is the part of the address space that starts at `map.addr`: image byte
  offset `k` is the byte at absolute address `map.addr + k`.
* Addresses are natural numbers.  `uint` arithmetic is reduced modulo `2^32` where
  the C expression is evaluated in `unsigned int`; `short` and `int` values are
  integers obtained by the conversions `toShort` and `toInt`.  Records are decoded
  in little-endian byte order.
* The globals `map`, `sb`, `fsptr`, `curr_inode` are the fields of `State`, which is
  passed through every function explicitly.
* A `for` loop whose bound does not change during the loop is a structural
  recursion on the number of iterations that remain.
* `exit(1)` after `fprintf(stderr, msg)` is `Outcome.exit 1 msg`; the call of
  `munmap` that precedes it has no observable effect and is left out.
-/

namespace Fcheck

/-- One byte of memory. -/
abbrev Byte := Fin 256

/-! ## Constants and record layouts of the xv6 headers -/

/-- Modelled from the spec: `include/fs.h` is not part of the sources; the block
size of the image format, 512 bytes. -/
def BSIZE : Nat := 512

/-- Modelled from the spec: `include/fs.h` is not part of the sources; the number of
direct block addresses of an inode. -/
def NDIRECT : Nat := 12

/-- Modelled from the spec: `include/fs.h` is not part of the sources; the number of
block numbers in an indirect block, `BSIZE / sizeof(uint)`. -/
def NINDIRECT : Nat := BSIZE / 4

/-- Modelled from the spec: `include/fs.h` is not part of the sources; the length of
the name field of a directory entry. -/
def DIRSIZ : Nat := 14

/-- Modelled from the spec: `include/fs.h` is not part of the sources; bitmap bits per
block, `BSIZE * 8`. -/
def BPB : Nat := BSIZE * 8

/-- Modelled from the spec: `include/stat.h` is not part of the sources; the inode
type of a directory. -/
def T_DIR : Int := 1

/-- Modelled from the spec: `include/stat.h` is not part of the sources; the inode
type of a regular file. -/
def T_FILE : Int := 2

/-- Modelled from the spec: `include/stat.h` is not part of the sources; the inode
type of a device. -/
def T_DEV : Int := 3

/-- Modelled from the spec: `struct superblock` of `include/fs.h` is not part of the
sources; seven `uint` fields in the order of the data model (total blocks,
data blocks, inodes, log size, and the start blocks of log, inode table and
bitmap). -/
structure superblock where
  size : Nat
  nblocks : Nat
  ninodes : Nat
  nlog : Nat
  logstart : Nat
  inodestart : Nat
  bmapstart : Nat
  deriving DecidableEq, Repr

/-- Modelled from the spec: `struct dinode` of `include/fs.h` is not part of the
sources; four `short` fields, a `uint` size and `NDIRECT + 1` block addresses of
type `uint`, 64 bytes in all. -/
structure dinode where
  type : Int
  major : Int
  minor : Int
  nlink : Int
  size : Nat
  addrs : List Nat
  deriving DecidableEq, Repr

/-- Modelled from the spec: `struct dirent` of `include/fs.h` is not part of the
sources; a `ushort` inode number followed by `DIRSIZ` name bytes, 16 bytes in
all. -/
structure dirent where
  inum : Nat
  name : List Byte
  deriving DecidableEq, Repr

/-- Size in bytes of `struct superblock`. -/
def sizeof_superblock : Nat := 28

/-- Size in bytes of `struct dinode`. -/
def sizeof_dinode : Nat := 64

/-- Size in bytes of `struct dirent`. -/
def sizeof_dirent : Nat := 16

/-- Size in bytes of `uint`. -/
def sizeof_uint : Nat := 4

/-! ## Machine state -/

/-- The `struct mapping` of the source. -/
structure mapping where
  addr : Nat
  length : Nat
  fd : Int
  deriving DecidableEq, Repr

/-- The address space of the process and the four globals of the source. -/
structure State where
  mem : Nat → Option Byte
  map : mapping
  sb : superblock
  fsptr : Nat
  curr_inode : dinode

/-- How a run ends when it does not continue: `exit status stderr` for a process
that terminates with `status` after writing `stderr`, `fault` for a process
killed by an access to unmapped memory. -/
inductive Outcome where
  | exit (status : Nat) (stderr : String)
  | fault
  deriving DecidableEq, Repr

/-- Result of running a function: it returns `val` in state `st`, or the whole
process stops. -/
inductive Run (α : Type) where
  | ok (val : α) (st : State)
  | stop (o : Outcome)

/-- The value a function returned, if it returned. -/
def Run.val? {α : Type} : Run α → Option α
  | .ok v _ => some v
  | .stop _ => none

/-- The state in which a function returned, if it returned. -/
def Run.st? {α : Type} : Run α → Option State
  | .ok _ s => some s
  | .stop _ => none

/-- The outcome with which the process stopped, if it stopped. -/
def Run.stopped? {α : Type} : Run α → Option Outcome
  | .ok _ _ => none
  | .stop o => some o

/-! ## Reading memory -/

/-- The source bytes of a `memmove` of `n` bytes from address `a`; `none` when one
of them is not mapped. -/
def readBytes (mem : Nat → Option Byte) (a : Nat) : Nat → Option (List Byte)
  | 0 => some []
  | n + 1 =>
    match mem a with
    | none => none
    | some b =>
      match readBytes mem (a + 1) n with
      | none => none
      | some bs => some (b :: bs)

/-- Little-endian value of a byte sequence. -/
def leNat : List Byte → Nat
  | [] => 0
  | b :: bs => b.val + 256 * leNat bs

/-- The `ushort` stored at offset `off` of a record. -/
def u16At (bs : List Byte) (off : Nat) : Nat := leNat ((bs.drop off).take 2)

/-- The `uint` stored at offset `off` of a record. -/
def u32At (bs : List Byte) (off : Nat) : Nat := leNat ((bs.drop off).take 4)

/-- Conversion of a 16-bit pattern to `short`. -/
def toShort (u : Nat) : Int :=
  if u % 2 ^ 16 < 2 ^ 15 then ((u % 2 ^ 16 : Nat) : Int) else ((u % 2 ^ 16 : Nat) : Int) - 2 ^ 16

/-- Conversion `(int)u` of an `unsigned int`. -/
def toInt (u : Nat) : Int :=
  if u % 2 ^ 32 < 2 ^ 31 then ((u % 2 ^ 32 : Nat) : Int) else ((u % 2 ^ 32 : Nat) : Int) - 2 ^ 32

/-- The superblock held by the bytes of a `struct superblock`. -/
def decode_superblock (bs : List Byte) : superblock :=
  { size := u32At bs 0, nblocks := u32At bs 4, ninodes := u32At bs 8, nlog := u32At bs 12,
    logstart := u32At bs 16, inodestart := u32At bs 20, bmapstart := u32At bs 24 }

/-- The inode held by the bytes of a `struct dinode`. -/
def decode_dinode (bs : List Byte) : dinode :=
  { type := toShort (u16At bs 0), major := toShort (u16At bs 2), minor := toShort (u16At bs 4),
    nlink := toShort (u16At bs 6), size := u32At bs 8,
    addrs := (List.range (NDIRECT + 1)).map (fun k => u32At bs (12 + 4 * k)) }

/-- The directory entry held by the bytes of a `struct dirent`. -/
def decode_dirent (bs : List Byte) : dirent :=
  { inum := u16At bs 0, name := (bs.drop 2).take DIRSIZ }

/-- The element `addrs[i]` of an inode. -/
def dinode.addr (d : dinode) (i : Nat) : Nat := d.addrs.getD i 0

/-! ## String comparison -/

/-- The C library `strncmp` on byte strings: a position past the end of a list
reads as the terminating NUL.  The result is the difference of the first pair of
bytes that differ, `0` when `n` bytes or both strings up to their NUL agree. -/
def strncmp : List Byte → List Byte → Nat → Int
  | _, _, 0 => 0
  | s1, s2, n + 1 =>
    let c1 := s1.headD 0
    let c2 := s2.headD 0
    if c1 ≠ c2 then (c1.val : Int) - (c2.val : Int)
    else if c1 = 0 then 0
    else strncmp s1.tail s2.tail n

/-! ## The lookup routines -/

/-- The loop of `traverseDir` (lines 175-182): `k` iterations remain, `i` is the loop
variable. -/
def traverseDir_loop (s : State) (name : List Byte) : Nat → Nat → Run Int
  | 0, _ => .ok (-1) s
  | k + 1, i =>
    match readBytes s.mem (s.fsptr + i * sizeof_dirent) sizeof_dirent with
    | none => .stop .fault
    | some bs =>
      let buf := decode_dirent bs
      if buf.inum = 0 then traverseDir_loop s name k (i + 1)
      else if strncmp name buf.name DIRSIZ = 0 then .ok (buf.inum : Int) s
      else traverseDir_loop s name k (i + 1)

/-- The function `traverseDir(addr, name)` (lines 170-184). -/
def traverseDir (s : State) (addr : Nat) (name : List Byte) : Run Int :=
  let s1 := { s with fsptr := s.map.addr + (addr * BSIZE) % 2 ^ 32 }
  traverseDir_loop s1 name (BSIZE / sizeof_dirent) 0

/-- How the direct loop of `checkDirOfInode` was left. -/
inductive Flow where
  | returned (v : Int)
  | done (result : Int)
  deriving DecidableEq, Repr

/-- The loop over the direct addresses in `checkDirOfInode` (lines 190-198): `k`
iterations remain, `i` is the loop variable, `result` the local variable of that
name. -/
def checkDirOfInode_direct (curr_inode : dinode) (name : List Byte) :
    Nat → Nat → Int → State → Run Flow
  | 0, _, result, s => .ok (.done result) s
  | k + 1, i, result, s =>
    if curr_inode.addr i = 0 then checkDirOfInode_direct curr_inode name k (i + 1) result s
    else
      match traverseDir s (curr_inode.addr i) name with
      | .stop o => .stop o
      | .ok r s1 =>
        if r ≠ -1 then .ok (.returned r) s1
        else checkDirOfInode_direct curr_inode name k (i + 1) r s1

/-- The loop over the indirect block in `checkDirOfInode` (lines 203-210); the pointer
`fsptr` is the number `addrs[NDIRECT] * BSIZE + i * sizeof(uint)` itself, `map.addr`
is not added. -/
def checkDirOfInode_indirect (curr_inode : dinode) (name : List Byte) :
    Nat → Nat → Int → State → Run Flow
  | 0, _, result, s => .ok (.done result) s
  | k + 1, i, _, s =>
    let s1 := { s with fsptr := (curr_inode.addr NDIRECT * BSIZE) % 2 ^ 32 + i * sizeof_uint }
    match readBytes s1.mem s1.fsptr sizeof_uint with
    | none => .stop .fault
    | some bs =>
      let buf2 := u32At bs 0
      match traverseDir s1 buf2 name with
      | .stop o => .stop o
      | .ok r s2 =>
        if r ≠ -1 then .ok (.returned r) s2
        else checkDirOfInode_indirect curr_inode name k (i + 1) r s2

/-- The function `checkDirOfInode(curr_inode, name)` (lines 186-213); its parameter
hides the global of the same name. -/
def checkDirOfInode (s : State) (curr_inode : dinode) (name : List Byte) : Run Int :=
  match checkDirOfInode_direct curr_inode name NDIRECT 0 (-1) s with
  | .stop o => .stop o
  | .ok (.returned v) s1 => .ok v s1
  | .ok (.done result) s1 =>
    if curr_inode.addr NDIRECT ≠ 0 then
      let s2 := { s1 with fsptr := (curr_inode.addr NDIRECT * BSIZE) % 2 ^ 32 }
      match checkDirOfInode_indirect curr_inode name NINDIRECT 0 result s2 with
      | .stop o => .stop o
      | .ok (.returned v) s3 => .ok v s3
      | .ok (.done result1) s3 => .ok result1 s3
    else .ok result s1

/-! ## The checks -/

/-- The string literal `"."`. -/
def dot : List Byte := [46]

/-- The string literal `".."`. -/
def dotdot : List Byte := [46, 46]

/-- The loop of `check_inode_types` (lines 107-118): `k` iterations remain, `inum` is
the loop variable. -/
def check_inode_types_loop : Nat → Nat → State → Run Unit
  | 0, _, s => .ok () s
  | k + 1, inum, s =>
    let s1 := { s with fsptr := s.map.addr + 2 * BSIZE + inum * sizeof_dinode }
    match readBytes s1.mem s1.fsptr sizeof_dinode with
    | none => .stop .fault
    | some bs =>
      let s2 := { s1 with curr_inode := decode_dinode bs }
      if s2.curr_inode.type ≠ 0 ∧ s2.curr_inode.type ≠ T_FILE ∧ s2.curr_inode.type ≠ T_DIR
          ∧ s2.curr_inode.type ≠ T_DEV then
        .stop (.exit 1 "ERROR: bad inode.\n")
      else check_inode_types_loop k (inum + 1) s2

/-- The function `check_inode_types()`; the loop runs while `inum < (int)sb.ninodes`. -/
def check_inode_types (s : State) : Run Unit :=
  check_inode_types_loop (toInt s.sb.ninodes).toNat 0 s

/-- The function `check_root()` (lines 122-132); the operands of `||` are evaluated
from left to right until one holds. -/
def check_root (s : State) : Run Unit :=
  let s1 := { s with fsptr := s.map.addr + 2 * BSIZE + sizeof_dinode }
  match readBytes s1.mem s1.fsptr sizeof_dinode with
  | none => .stop .fault
  | some bs =>
    let s2 := { s1 with curr_inode := decode_dinode bs }
    if s2.curr_inode.type ≠ T_DIR then .stop (.exit 1 "ERROR: root directory does not exist.\n")
    else
      match checkDirOfInode s2 s2.curr_inode dot with
      | .stop o => .stop o
      | .ok r1 s3 =>
        if r1 ≠ 1 then .stop (.exit 1 "ERROR: root directory does not exist.\n")
        else
          match checkDirOfInode s3 s3.curr_inode dotdot with
          | .stop o => .stop o
          | .ok r2 s4 =>
            if r2 ≠ 1 then .stop (.exit 1 "ERROR: root directory does not exist.\n")
            else .ok () s4

/-- The loop of `check_dir_format` (lines 138-149): `k` iterations remain, `inum` is
the loop variable. -/
def check_dir_format_loop : Nat → Nat → State → Run Unit
  | 0, _, s => .ok () s
  | k + 1, inum, s =>
    let s1 := { s with fsptr := s.map.addr + 2 * BSIZE + inum * sizeof_dinode }
    match readBytes s1.mem s1.fsptr sizeof_dinode with
    | none => .stop .fault
    | some bs =>
      let s2 := { s1 with curr_inode := decode_dinode bs }
      if s2.curr_inode.type = T_DIR then
        match checkDirOfInode s2 s2.curr_inode dot with
        | .stop o => .stop o
        | .ok r1 s3 =>
          if r1 ≠ (inum : Int) then
            .stop (.exit 1 "ERROR: directory not properly formatted.\n")
          else
            match checkDirOfInode s3 s3.curr_inode dotdot with
            | .stop o => .stop o
            | .ok r2 s4 =>
              if r2 < 0 then .stop (.exit 1 "ERROR: directory not properly formatted.\n")
              else check_dir_format_loop k (inum + 1) s4
      else check_dir_format_loop k (inum + 1) s2

/-- The function `check_dir_format()`; the loop runs while `inum < (int)sb.ninodes`. -/
def check_dir_format (s : State) : Run Unit :=
  check_dir_format_loop (toInt s.sb.ninodes).toNat 0 s

/-- The statement `memmove(&sb, map.addr + BSIZE, sizeof(sb))` of `main`. -/
def copy_superblock (s : State) : Run Unit :=
  match readBytes s.mem (s.map.addr + BSIZE) sizeof_superblock with
  | none => .stop .fault
  | some bs => .ok () { s with sb := decode_superblock bs }

/-- The function `main()` from the copy of the superblock on: `s` is the state in
which `map` describes the mapping of `fs.img` that `open`, `fstat` and `mmap`
have set up.  Returning 0 from `main` ends the process with status 0. -/
def main (s : State) : Outcome :=
  match copy_superblock s with
  | .stop o => o
  | .ok _ s1 =>
    match check_inode_types s1 with
    | .stop o => o
    | .ok _ s2 =>
      match check_root s2 with
      | .stop o => o
      | .ok _ s3 =>
        match check_dir_format s3 with
        | .stop o => o
        | .ok _ _ => .exit 0 ""

/-- The loop of `isValidDataBlock`: `some v` when the loop executes `return v`, `none`
when it runs to completion. -/
def isValidDataBlock_loop (curr_inode : dinode) (maxBmap maxBlockNum : Nat) :
    Nat → Nat → Option Int
  | 0, _ => none
  | k + 1, i =>
    if curr_inode.addr i ≠ 0
        ∧ (curr_inode.addr i < maxBmap ∨ curr_inode.addr i > maxBlockNum) then some 0
    else isValidDataBlock_loop curr_inode maxBmap maxBlockNum k (i + 1)

/-- The function `isValidDataBlock(curr_inode)`; no caller exists in the source. -/
def isValidDataBlock (s : State) (curr_inode : dinode) : Run Int :=
  let maxBlockNum := (s.sb.size % 2 ^ 32 + 2 ^ 32 - 1) % 2 ^ 32
  let maxBmap := s.sb.size % 2 ^ 32 / BPB
  let maxBmap := if s.sb.size % 2 ^ 32 % BPB ≠ 0 then (maxBmap + 1) % 2 ^ 32 else maxBmap
  match isValidDataBlock_loop curr_inode maxBmap maxBlockNum (NDIRECT + 1) 0 with
  | some v => .ok v s
  | none => .ok 0 s

/-! ## Vocabulary of the specification -/

/-- The `n` bytes at byte offset `off` of the image; `none` when they are not all
mapped. -/
def imageBytes (s : State) (off n : Nat) : Option (List Byte) :=
  readBytes s.mem (s.map.addr + off) n

/-- The inode with number `i`: the record at image byte offset `2*BSIZE + 64*i`. -/
def inodeAt (s : State) (i : Nat) : Option dinode :=
  (imageBytes s (2 * BSIZE + i * sizeof_dinode) sizeof_dinode).map decode_dinode

/-- The directory entry in slot `i` of block `b` of the image. -/
def slotAt (s : State) (b i : Nat) : Option dirent :=
  (imageBytes s (b * BSIZE + i * sizeof_dirent) sizeof_dirent).map decode_dirent

/-- The result of `lookup(d, name)`, that is of `checkDirOfInode`; `none` when the
call does not return. -/
def lookup (s : State) (d : dinode) (name : List Byte) : Option Int :=
  (checkDirOfInode s d name).val?

/-- The type field is none of unallocated, file, directory, device. -/
def BadType (d : dinode) : Prop :=
  d.type ≠ 0 ∧ d.type ≠ T_FILE ∧ d.type ≠ T_DIR ∧ d.type ≠ T_DEV

instance (d : dinode) : Decidable (BadType d) := by
  unfold BadType; infer_instance

/-- A name cut at its first NUL or at `DIRSIZ` bytes. -/
def cstr (bs : List Byte) : List Byte := (bs.takeWhile (fun b => decide (b ≠ 0))).take DIRSIZ

/-- An occupied slot whose name is the query name. -/
def Matches (name : List Byte) (e : dirent) : Prop :=
  e.inum ≠ 0 ∧ cstr name = cstr e.name

instance (name : List Byte) (e : dirent) : Decidable (Matches name e) := by
  unfold Matches; infer_instance

/-- A run from state `s` keeps the memory, the mapping, the superblock and the global
`curr_inode`, and stops only by a fault. -/
def Run.Frame {α : Type} (s : State) : Run α → Prop
  | .ok _ u => u.mem = s.mem ∧ u.map = s.map ∧ u.sb = s.sb ∧ u.curr_inode = s.curr_inode
  | .stop o => o = .fault

/-! ## Concrete images -/

/-- The byte with value `n mod 256`. -/
def byteOf (n : Nat) : Byte := Fin.ofNat n

/-- Little-endian bytes of a `ushort`. -/
def le16 (n : Nat) : List Byte := [byteOf n, byteOf (n / 256)]

/-- Little-endian bytes of a `uint`. -/
def le32 (n : Nat) : List Byte :=
  [byteOf n, byteOf (n / 256), byteOf (n / 65536), byteOf (n / 16777216)]

/-- Bytes of an inode record with the given type, link count, size and leading
block addresses; the device numbers and the remaining addresses are 0. -/
def encode_dinode (type nlink size : Nat) (addrs : List Nat) : List Byte :=
  le16 type ++ le16 0 ++ le16 0 ++ le16 nlink ++ le32 size
    ++ ((addrs ++ List.replicate (NDIRECT + 1) 0).take (NDIRECT + 1)).flatMap le32

/-- Bytes of a directory entry; the name is padded with NUL to `DIRSIZ` bytes. -/
def encode_dirent (inum : Nat) (name : List Byte) : List Byte :=
  le16 inum ++ (name ++ List.replicate DIRSIZ 0).take DIRSIZ

/-- The byte at offset `off` of an image given by segments (offset, content); a
byte outside every segment is 0. -/
def segByte : List (Nat × List Byte) → Nat → Byte
  | [], _ => 0
  | (o, bs) :: rest, off =>
    if o ≤ off ∧ off < o + bs.length then bs.getD (off - o) 0 else segByte rest off

/-- An address space in which only an image of `len` bytes is mapped, at `base`. -/
def imageMem (base len : Nat) (segs : List (Nat × List Byte)) : Nat → Option Byte :=
  fun a => if base ≤ a ∧ a < base + len then some (segByte segs (a - base)) else none

/-- The state at the start of `main` section 2: the image is mapped, the globals
`sb`, `fsptr` and `curr_inode` are zero-initialised. -/
def initState (mem : Nat → Option Byte) (addr len : Nat) : State :=
  { mem := mem, map := { addr := addr, length := len, fd := 3 },
    sb := ⟨0, 0, 0, 0, 0, 0, 0⟩, fsptr := 0,
    curr_inode := ⟨0, 0, 0, 0, 0, List.replicate (NDIRECT + 1) 0⟩ }

/-- The state after the superblock has been copied, in which the checks run. -/
def loaded (s : State) : State :=
  match copy_superblock s with
  | .ok _ s1 => s1
  | .stop _ => s

/-- The address at which the sample images are mapped. -/
def sampleBase : Nat := 0x7f0000000000

/-- The name `foo`. -/
def foo : List Byte := [102, 111, 111]

/-- The well-formed image of the specification: four inodes, inode 1 the root
directory with the entries `.`, `..` and `foo` in block 4, inode 2 a regular file
with one link. -/
def goodSegs : List (Nat × List Byte) :=
  [ (512, le32 8 ++ le32 4 ++ le32 4),
    (1024 + 64, encode_dinode 1 1 48 [4]),
    (1024 + 128, encode_dinode 2 1 0 []),
    (2048, encode_dirent 1 dot ++ encode_dirent 1 dotdot ++ encode_dirent 2 foo) ]

/-- The well-formed image, mapped. -/
def goodState : State := initState (imageMem sampleBase 4096 goodSegs) sampleBase 4096

/-- An image whose superblock announces `2^31` inodes and whose inode 0 has the
type 7. -/
def hugeCountSegs : List (Nat × List Byte) :=
  [ (512, le32 8 ++ le32 4 ++ le32 (2 ^ 31)),
    (1024, encode_dinode 7 0 0 []) ]

/-- The image `hugeCountSegs`, mapped. -/
def hugeCountState : State :=
  initState (imageMem sampleBase 4096 hugeCountSegs) sampleBase 4096

/-- The root inode of the image `goodSegs`. -/
def goodRoot : dinode := ⟨1, 0, 0, 1, 48, [4, 0, 0, 0, 0, 0, 0, 0, 0, 0, 0, 0, 0]⟩

/-- An image whose superblock announces `2^31` inodes and whose inode 0 is a
directory without any block. -/
def hugeDirSegs : List (Nat × List Byte) :=
  [ (512, le32 8 ++ le32 4 ++ le32 (2 ^ 31)),
    (1024, encode_dinode 1 1 0 []) ]

/-- The image `hugeDirSegs`, mapped. -/
def hugeDirState : State :=
  initState (imageMem sampleBase 4096 hugeDirSegs) sampleBase 4096

/-- The name `a`. -/
def nameA : List Byte := [97]

/-- An image of `2^23 + 1` blocks: slot 0 of block 0 holds the entry (`a`, 7), every
other byte is 0, so block `2^23` is empty. -/
def wrapState : State :=
  initState (imageMem sampleBase (2 ^ 32 + 512) [(0, encode_dirent 7 nameA)])
    sampleBase (2 ^ 32 + 512)

/-- The name `bar`. -/
def bar : List Byte := [98, 97, 114]

/-- An image whose root directory has the direct block 4 (entries `.` and `..`) and
the indirect block 5; the indirect block lists block 6, which holds the entry
(`bar`, 3). -/
def indSegs : List (Nat × List Byte) :=
  [ (512, le32 8 ++ le32 4 ++ le32 4),
    (1024 + 64, encode_dinode 1 1 7168 [4, 0, 0, 0, 0, 0, 0, 0, 0, 0, 0, 0, 5]),
    (1024 + 128, encode_dinode 2 1 0 []),
    (4 * 512, encode_dirent 1 dot ++ encode_dirent 1 dotdot),
    (5 * 512, le32 6),
    (6 * 512, encode_dirent 3 bar) ]

/-- The image `indSegs`, mapped at `sampleBase`; nothing else is mapped. -/
def indState : State := initState (imageMem sampleBase 4096 indSegs) sampleBase 4096

/-- The root inode of the image `indSegs`. -/
def indRoot : dinode := ⟨1, 0, 0, 1, 7168, [4, 0, 0, 0, 0, 0, 0, 0, 0, 0, 0, 0, 5]⟩

/-- The name `boot`. -/
def boot : List Byte := [98, 111, 111, 116]

/-- An image of 14336 blocks whose block 0 starts with the bytes of an entry
(`boot`, 9) and whose root directory has the direct block 4 (entries `.` and `..`)
and the indirect block 12288, a block of zeros. -/
def zeroSlotSegs : List (Nat × List Byte) :=
  [ (0, encode_dirent 9 boot),
    (512, le32 14336 ++ le32 14000 ++ le32 4),
    (1024 + 64, encode_dinode 1 1 7168 [4, 0, 0, 0, 0, 0, 0, 0, 0, 0, 0, 0, 12288]),
    (4 * 512, encode_dirent 1 dot ++ encode_dirent 1 dotdot) ]

/-- The image `zeroSlotSegs`, mapped at `sampleBase`, in a process that also has a
page of zeros at the absolute address `0x600000`, which is `12288 * BSIZE`. -/
def zeroSlotState : State :=
  initState
    (fun a => if 0x600000 ≤ a ∧ a < 0x601000 then some 0
      else imageMem sampleBase 0x700000 zeroSlotSegs a)
    sampleBase 0x700000

/-- The root inode of the image `zeroSlotSegs`. -/
def zeroSlotRoot : dinode := ⟨1, 0, 0, 1, 7168, [4, 0, 0, 0, 0, 0, 0, 0, 0, 0, 0, 0, 12288]⟩

/-- An image with four inodes in which inode 1 is unallocated, so that there is no
root directory, and inode 2 has the type 9. -/
def bothBadSegs : List (Nat × List Byte) :=
  [ (512, le32 8 ++ le32 4 ++ le32 4),
    (1024 + 128, encode_dinode 9 1 0 []) ]

/-- The image `bothBadSegs`, mapped. -/
def bothBadState : State :=
  initState (imageMem sampleBase 4096 bothBadSegs) sampleBase 4096

/-- Outcome of a check on two states: both stop in the same way, or both return, in
states with the same memory, the same place of the mapping and the same superblock. -/
def Run.Sim : Run Unit → Run Unit → Prop
  | .ok _ u, .ok _ w => u.mem = w.mem ∧ u.map.addr = w.map.addr ∧ u.sb = w.sb
  | .stop o, .stop p => o = p
  | _, _ => False

/-! ## Further images -/

/-- Bytes of a superblock of 8 blocks with 4 data blocks, 4 inodes, no log, the inode
table in block 2 and the bitmap in block 3. -/
def smallSb : List Byte :=
  le32 8 ++ le32 4 ++ le32 4 ++ le32 0 ++ le32 2 ++ le32 2 ++ le32 3

/-- The well-formed image with the link count of inode 2 set to 2: the only entry that
refers to inode 2 is `foo` in the root directory. -/
def linkSegs : List (Nat × List Byte) :=
  [ (512, smallSb),
    (1024 + 64, encode_dinode 1 1 48 [4]),
    (1024 + 128, encode_dinode 2 2 0 []),
    (3 * 512, [31]),
    (4 * 512, encode_dirent 1 dot ++ encode_dirent 1 dotdot ++ encode_dirent 2 foo) ]

/-- The image `linkSegs`, mapped. -/
def linkState : State := initState (imageMem sampleBase 4096 linkSegs) sampleBase 4096

/-- The well-formed image with the first bitmap byte `b`: the blocks 0 to 3 hold the
boot block, the superblock, the inodes and the bitmap, block 4 is the data block of
the root directory and the blocks 5 to 7 are referenced by no inode, so that the
consistent bitmap byte is 31. -/
def bitmapSegs (b : Nat) : List (Nat × List Byte) :=
  [ (512, smallSb),
    (1024 + 64, encode_dinode 1 1 48 [4]),
    (1024 + 128, encode_dinode 2 1 0 []),
    (3 * 512, [byteOf b]),
    (4 * 512, encode_dirent 1 dot ++ encode_dirent 1 dotdot ++ encode_dirent 2 foo) ]

/-- The image `bitmapSegs b`, mapped. -/
def bitmapState (b : Nat) : State :=
  initState (imageMem sampleBase 4096 (bitmapSegs b)) sampleBase 4096

/-- Bit `n` of the bitmap that starts in block `sb.bmapstart` of the image. -/
def bitmapBit (s : State) (n : Nat) : Option Bool :=
  (imageBytes s (s.sb.bmapstart * BSIZE + n / 8) 1).map
    (fun bs => (bs.headD 0).val / 2 ^ (n % 8) % 2 = 1)

/-- An image in which the regular files 2 and 3, entered in the root directory as `foo`
and `bar`, both have the direct block 5. -/
def aliasSegs : List (Nat × List Byte) :=
  [ (512, smallSb),
    (1024 + 64, encode_dinode 1 1 64 [4]),
    (1024 + 128, encode_dinode 2 1 512 [5]),
    (1024 + 192, encode_dinode 2 1 512 [5]),
    (3 * 512, [63]),
    (4 * 512, encode_dirent 1 dot ++ encode_dirent 1 dotdot ++ encode_dirent 2 foo
      ++ encode_dirent 3 bar) ]

/-- The image `aliasSegs`, mapped. -/
def aliasState : State := initState (imageMem sampleBase 4096 aliasSegs) sampleBase 4096

/-- An image in which inode 2 is a regular file that no directory entry refers to: the
only directory is the root, with the entries `.` and `..`. -/
def orphanSegs : List (Nat × List Byte) :=
  [ (512, smallSb),
    (1024 + 64, encode_dinode 1 1 32 [4]),
    (1024 + 128, encode_dinode 2 1 0 []),
    (3 * 512, [31]),
    (4 * 512, encode_dirent 1 dot ++ encode_dirent 1 dotdot) ]

/-- The image `orphanSegs`, mapped. -/
def orphanState : State := initState (imageMem sampleBase 4096 orphanSegs) sampleBase 4096

/-- The inode numbers of the occupied slots of block `b`, in slot order. -/
def blockTargets (s : State) (b : Nat) : List Nat :=
  (List.range (BSIZE / sizeof_dirent)).filterMap
    (fun i => (slotAt s b i).bind (fun e => if e.inum = 0 then none else some e.inum))

/-- The types of the inodes `0 .. n-1` of the image. -/
def inodeTypes (s : State) (n : Nat) : List (Option Int) :=
  (List.range n).map (fun i => (inodeAt s i).map (fun d => d.type))

/-- A file of 100 bytes, all of them 0, mapped by one page of 4096 bytes whose rest is
filled with zeros. -/
def shortState : State := initState (imageMem sampleBase 4096 []) sampleBase 100

/-- An image with four inodes in which inode 0 is a directory without any block. -/
def dirZeroSegs : List (Nat × List Byte) :=
  [ (512, smallSb),
    (1024, encode_dinode 1 1 0 []),
    (1024 + 64, encode_dinode 1 1 32 [4]),
    (4 * 512, encode_dirent 1 dot ++ encode_dirent 1 dotdot) ]

/-- The image `dirZeroSegs`, mapped. -/
def dirZeroState : State := initState (imageMem sampleBase 4096 dirZeroSegs) sampleBase 4096

/-- An image whose superblock announces `2^31 + 5` inodes, in which the inodes 0 and
65536 are directories without any block. -/
def farDirSegs : List (Nat × List Byte) :=
  [ (512, le32 8 ++ le32 4 ++ le32 (2 ^ 31 + 5)),
    (1024, encode_dinode 1 1 0 []),
    (1024 + 64 * 65536, encode_dinode 1 1 0 []) ]

/-- The image `farDirSegs`, mapped. -/
def farDirState : State :=
  initState (imageMem sampleBase 0x500000 farDirSegs) sampleBase 0x500000

/-- An image whose superblock announces `2^31` inodes, with a well-formed root directory
and the invalid type 9 in inode 2. -/
def hugeOkSegs : List (Nat × List Byte) :=
  [ (512, le32 8 ++ le32 4 ++ le32 (2 ^ 31)),
    (1024 + 64, encode_dinode 1 1 32 [4]),
    (1024 + 128, encode_dinode 9 1 0 []),
    (4 * 512, encode_dirent 1 dot ++ encode_dirent 1 dotdot) ]

/-- The image `hugeOkSegs`, mapped. -/
def hugeOkState : State := initState (imageMem sampleBase 4096 hugeOkSegs) sampleBase 4096

/-- An image of 8 blocks whose root directory has the direct blocks 4 and 1000: in
block 4 the slot of `.` is free and `..` is present, block 1000 lies far beyond the end
of the image. -/
def noDotSegs : List (Nat × List Byte) :=
  [ (512, smallSb),
    (1024 + 64, encode_dinode 1 1 1024 [4, 1000]),
    (4 * 512, encode_dirent 0 dot ++ encode_dirent 1 dotdot) ]

/-- The image `noDotSegs`, mapped at `sampleBase`; nothing else is mapped. -/
def noDotState : State := initState (imageMem sampleBase 4096 noDotSegs) sampleBase 4096

/-- The root inode of the image `noDotSegs`. -/
def noDotRoot : dinode := ⟨1, 0, 0, 1, 1024, [4, 1000, 0, 0, 0, 0, 0, 0, 0, 0, 0, 0, 0]⟩

theorem byte_sub_eq_zero (a b : Byte) : ((a.val : Int) - (b.val : Int) = 0) ↔ a = b := by
  constructor
  · intro h
    apply Fin.ext
    omega
  · intro h
    subst h
    omega

theorem strncmp_eq_zero_iff (n : Nat) : ∀ s1 s2 : List Byte,
    strncmp s1 s2 n = 0 ↔
      (s1.takeWhile (fun b => decide (b ≠ 0))).take n
        = (s2.takeWhile (fun b => decide (b ≠ 0))).take n := by
  induction n with
  | zero => intro s1 s2; simp [strncmp]
  | succ n ih =>
    intro s1 s2
    cases s1 with
    | nil =>
      cases s2 with
      | nil => simp [strncmp]
      | cons b t =>
        by_cases hb : b = 0
        · subst hb; simp [strncmp]
        · have hb' : ¬ (0 : Byte) = b := fun h => hb h.symm
          simp only [strncmp, List.headD_nil, List.headD_cons, ne_eq, hb', not_false_eq_true,
            if_true, byte_sub_eq_zero]
          simp [hb]
    | cons a t1 =>
      cases s2 with
      | nil =>
        by_cases ha : a = 0
        · subst ha; simp [strncmp]
        · simp only [strncmp, List.headD_nil, List.headD_cons, ne_eq, ha, not_false_eq_true,
            if_true, byte_sub_eq_zero]
          simp [ha]
      | cons b t2 =>
        by_cases hab : a = b
        · subst hab
          by_cases ha : a = 0
          · subst ha; simp [strncmp]
          · simp [strncmp, ha, List.takeWhile_cons, ih t1 t2]
        · simp only [strncmp, List.headD_cons, ne_eq, hab, not_false_eq_true,
            if_true, byte_sub_eq_zero]
          by_cases ha : a = 0
          · subst ha
            have hb : b ≠ 0 := fun h => hab h.symm
            simp [hb, List.takeWhile_cons]
          · by_cases hb : b = 0
            · subst hb
              simp [ha, List.takeWhile_cons]
            · simp [hab, ha, hb, List.takeWhile_cons]

/-! ### Shape of the lookup routines -/

theorem traverseDir_loop_eq (s : State) (name : List Byte) (k : Nat) : ∀ i,
    traverseDir_loop s name k i =
      match (traverseDir_loop s name k i).val? with
      | some r => .ok r s
      | none => .stop .fault := by
  induction k with
  | zero => intro i; simp [traverseDir_loop, Run.val?]
  | succ k ih =>
    intro i
    unfold traverseDir_loop
    cases readBytes s.mem (s.fsptr + i * sizeof_dirent) sizeof_dirent with
    | none => simp [Run.val?]
    | some bs =>
      simp only
      by_cases h0 : (decode_dirent bs).inum = 0
      · simp only [h0, if_true]; exact ih (i + 1)
      · simp only [h0, if_false]
        by_cases hm : strncmp name (decode_dirent bs).name DIRSIZ = 0
        · simp [hm, Run.val?]
        · simp only [hm, if_false]; exact ih (i + 1)

theorem traverseDir_loop_val_congr (s t : State) (name : List Byte) (k : Nat)
    (hm : s.mem = t.mem) (hf : s.fsptr = t.fsptr) : ∀ i,
    (traverseDir_loop s name k i).val? = (traverseDir_loop t name k i).val? := by
  induction k with
  | zero => intro i; simp [traverseDir_loop, Run.val?]
  | succ k ih =>
    intro i
    unfold traverseDir_loop
    rw [hm, hf]
    cases readBytes t.mem (t.fsptr + i * sizeof_dirent) sizeof_dirent with
    | none => simp [Run.val?]
    | some bs =>
      simp only
      by_cases h0 : (decode_dirent bs).inum = 0
      · simp only [h0, if_true]; exact ih (i + 1)
      · simp only [h0, if_false]
        by_cases hm : strncmp name (decode_dirent bs).name DIRSIZ = 0
        · simp [hm, Run.val?]
        · simp only [hm, if_false]; exact ih (i + 1)

/-- The state in which `traverseDir` returns. -/
theorem traverseDir_eq (s : State) (addr : Nat) (name : List Byte) :
    traverseDir s addr name =
      match (traverseDir s addr name).val? with
      | some r => .ok r { s with fsptr := s.map.addr + (addr * BSIZE) % 2 ^ 32 }
      | none => .stop .fault := by
  unfold traverseDir
  exact traverseDir_loop_eq _ name _ 0

theorem traverseDir_val_congr (s t : State) (addr : Nat) (name : List Byte)
    (hm : s.mem = t.mem) (ha : s.map.addr = t.map.addr) :
    (traverseDir s addr name).val? = (traverseDir t addr name).val? := by
  unfold traverseDir
  apply traverseDir_loop_val_congr
  · exact hm
  · simp [ha]

theorem traverseDir_frame (s : State) (addr : Nat) (name : List Byte) :
    (traverseDir s addr name).Frame s := by
  rw [traverseDir_eq]
  generalize (traverseDir s addr name).val? = v
  cases v <;> simp [Run.Frame]

theorem checkDirOfInode_direct_frame (d : dinode) (name : List Byte) (k : Nat) :
    ∀ i res s, (checkDirOfInode_direct d name k i res s).Frame s := by
  induction k with
  | zero => intro i res s; simp [checkDirOfInode_direct, Run.Frame]
  | succ k ih =>
    intro i res s
    unfold checkDirOfInode_direct
    by_cases h0 : d.addr i = 0
    · simp only [h0, if_true]; exact ih (i + 1) res s
    · simp only [h0, if_false]
      rw [traverseDir_eq]
      generalize (traverseDir s (d.addr i) name).val? = v
      cases v with
      | none => simp [Run.Frame]
      | some r =>
        simp only
        by_cases hr : r = -1
        · simp only [hr, ne_eq, not_true_eq_false, if_false]
          have := ih (i + 1) (-1) { s with fsptr := s.map.addr + (d.addr i * BSIZE) % 2 ^ 32 }
          revert this
          generalize checkDirOfInode_direct d name k (i + 1) (-1) _ = q
          cases q <;> simp [Run.Frame]
        · simp [hr, Run.Frame]

theorem checkDirOfInode_direct_val_congr (d : dinode) (name : List Byte) (k : Nat) :
    ∀ i res s t, s.mem = t.mem → s.map.addr = t.map.addr →
      (checkDirOfInode_direct d name k i res s).val?
        = (checkDirOfInode_direct d name k i res t).val? := by
  induction k with
  | zero => intro i res s t _ _; simp [checkDirOfInode_direct, Run.val?]
  | succ k ih =>
    intro i res s t hm ha
    unfold checkDirOfInode_direct
    by_cases h0 : d.addr i = 0
    · simp only [h0, if_true]; exact ih (i + 1) res s t hm ha
    · simp only [h0, if_false]
      rw [traverseDir_eq s, traverseDir_eq t, traverseDir_val_congr s t _ _ hm ha]
      generalize (traverseDir t (d.addr i) name).val? = v
      cases v with
      | none => simp [Run.val?]
      | some r =>
        simp only
        by_cases hr : r = -1
        · simp only [hr, ne_eq, not_true_eq_false, if_false]
          exact ih (i + 1) (-1) _ _ hm ha
        · simp [hr, Run.val?]

theorem checkDirOfInode_indirect_frame (d : dinode) (name : List Byte) (k : Nat) :
    ∀ i res s, (checkDirOfInode_indirect d name k i res s).Frame s := by
  induction k with
  | zero => intro i res s; simp [checkDirOfInode_indirect, Run.Frame]
  | succ k ih =>
    intro i res s
    unfold checkDirOfInode_indirect
    simp only
    cases readBytes s.mem ((d.addr NDIRECT * BSIZE) % 2 ^ 32 + i * sizeof_uint) sizeof_uint with
    | none => simp [Run.Frame]
    | some bs =>
      simp only
      rw [traverseDir_eq]
      generalize (traverseDir _ (u32At bs 0) name).val? = v
      cases v with
      | none => simp [Run.Frame]
      | some r =>
        simp only
        by_cases hr : r = -1
        · simp only [hr, ne_eq, not_true_eq_false, if_false]
          have := ih (i + 1) (-1) { s with fsptr := s.map.addr + (u32At bs 0 * BSIZE) % 2 ^ 32 }
          revert this
          generalize checkDirOfInode_indirect d name k (i + 1) (-1) _ = q
          cases q <;> simp [Run.Frame]
        · simp [hr, Run.Frame]

theorem checkDirOfInode_indirect_val_congr (d : dinode) (name : List Byte) (k : Nat) :
    ∀ i res s t, s.mem = t.mem → s.map.addr = t.map.addr →
      (checkDirOfInode_indirect d name k i res s).val?
        = (checkDirOfInode_indirect d name k i res t).val? := by
  induction k with
  | zero => intro i res s t _ _; simp [checkDirOfInode_indirect, Run.val?]
  | succ k ih =>
    intro i res s t hm ha
    unfold checkDirOfInode_indirect
    simp only
    have hs : readBytes s.mem ((d.addr NDIRECT * BSIZE) % 2 ^ 32 + i * sizeof_uint) sizeof_uint
        = readBytes t.mem ((d.addr NDIRECT * BSIZE) % 2 ^ 32 + i * sizeof_uint) sizeof_uint := by
      rw [hm]
    rw [hs]
    cases readBytes t.mem ((d.addr NDIRECT * BSIZE) % 2 ^ 32 + i * sizeof_uint) sizeof_uint with
    | none => simp [Run.val?]
    | some bs =>
      simp only
      have e := traverseDir_val_congr
        { s with fsptr := (d.addr NDIRECT * BSIZE) % 2 ^ 32 + i * sizeof_uint }
        { t with fsptr := (d.addr NDIRECT * BSIZE) % 2 ^ 32 + i * sizeof_uint }
        (u32At bs 0) name hm ha
      rw [traverseDir_eq { s with fsptr := (d.addr NDIRECT * BSIZE) % 2 ^ 32 + i * sizeof_uint },
        traverseDir_eq { t with fsptr := (d.addr NDIRECT * BSIZE) % 2 ^ 32 + i * sizeof_uint }, e]
      generalize (traverseDir _ (u32At bs 0) name).val? = v
      cases v with
      | none => simp [Run.val?]
      | some r =>
        simp only
        by_cases hr : r = -1
        · simp only [hr, ne_eq, not_true_eq_false, if_false]
          exact ih (i + 1) (-1) _ _ hm ha
        · simp [hr, Run.val?]

theorem Run.frame_cases {α : Type} {s : State} {q : Run α} (h : q.Frame s) :
    (q = .stop .fault ∧ q.val? = none) ∨
      ∃ v u, q = .ok v u ∧ q.val? = some v ∧ u.mem = s.mem ∧ u.map = s.map ∧ u.sb = s.sb
        ∧ u.curr_inode = s.curr_inode := by
  cases q with
  | stop o =>
    left
    simp only [Run.Frame] at h
    subst h
    exact ⟨rfl, rfl⟩
  | ok v u =>
    right
    simp only [Run.Frame] at h
    exact ⟨v, u, rfl, rfl, h⟩

theorem checkDirOfInode_frame (s : State) (d : dinode) (name : List Byte) :
    (checkDirOfInode s d name).Frame s := by
  unfold checkDirOfInode
  rcases Run.frame_cases (checkDirOfInode_direct_frame d name NDIRECT 0 (-1) s) with
    ⟨h, _⟩ | ⟨v, u, h, _, h1, h2, h3, h4⟩
  · rw [h]; simp [Run.Frame]
  · rw [h]
    cases v with
    | returned r => simp [Run.Frame, h1, h2, h3, h4]
    | done res =>
      simp only
      by_cases hz : d.addr NDIRECT = 0
      · simp [hz, Run.Frame, h1, h2, h3, h4]
      · simp only [ne_eq, hz, not_false_eq_true, if_true]
        rcases Run.frame_cases (checkDirOfInode_indirect_frame d name NINDIRECT 0 res
            { u with fsptr := (d.addr NDIRECT * BSIZE) % 2 ^ 32 }) with
          ⟨h', _⟩ | ⟨v', u', h', _, g1, g2, g3, g4⟩
        · rw [h']; simp [Run.Frame]
        · rw [h']
          simp only at g1 g2 g3 g4
          cases v' <;> simp [Run.Frame, h1, h2, h3, h4, g1, g2, g3, g4]

theorem checkDirOfInode_val_congr (s t : State) (d : dinode) (name : List Byte)
    (hm : s.mem = t.mem) (ha : s.map.addr = t.map.addr) :
    (checkDirOfInode s d name).val? = (checkDirOfInode t d name).val? := by
  unfold checkDirOfInode
  have hv := checkDirOfInode_direct_val_congr d name NDIRECT 0 (-1) s t hm ha
  rcases Run.frame_cases (checkDirOfInode_direct_frame d name NDIRECT 0 (-1) s) with
    ⟨h, hn⟩ | ⟨v, u, h, hs, h1, h2, _, _⟩ <;>
  rcases Run.frame_cases (checkDirOfInode_direct_frame d name NDIRECT 0 (-1) t) with
    ⟨k, kn⟩ | ⟨w, x, k, ks, k1, k2, _, _⟩
  · rw [h, k]
  · rw [hn, ks] at hv; cases hv
  · rw [hs, kn] at hv; cases hv
  · rw [hs, ks] at hv
    cases hv
    rw [h, k]
    cases v with
    | returned r => simp [Run.val?]
    | done res =>
      simp only
      by_cases hz : d.addr NDIRECT = 0
      · simp [hz, Run.val?]
      · simp only [ne_eq, hz, not_false_eq_true, if_true]
        have hum : u.mem = x.mem := by rw [h1, k1, hm]
        have hua : u.map.addr = x.map.addr := by rw [h2, k2, ha]
        have hv' := checkDirOfInode_indirect_val_congr d name NINDIRECT 0 res
          { u with fsptr := (d.addr NDIRECT * BSIZE) % 2 ^ 32 }
          { x with fsptr := (d.addr NDIRECT * BSIZE) % 2 ^ 32 } hum hua
        rcases Run.frame_cases (checkDirOfInode_indirect_frame d name NINDIRECT 0 res
            { u with fsptr := (d.addr NDIRECT * BSIZE) % 2 ^ 32 }) with
          ⟨h', hn'⟩ | ⟨v', u', h', hs', _⟩ <;>
        rcases Run.frame_cases (checkDirOfInode_indirect_frame d name NINDIRECT 0 res
            { x with fsptr := (d.addr NDIRECT * BSIZE) % 2 ^ 32 }) with
          ⟨k', kn'⟩ | ⟨w', x', k', ks', _⟩
        · rw [h', k']
        · rw [hn', ks'] at hv'; cases hv'
        · rw [hs', kn'] at hv'; cases hv'
        · rw [hs', ks'] at hv'
          cases hv'
          rw [h', k']
          cases v' <;> simp [Run.val?]

/-! ### Range of the lookup results -/

theorem leNat_take_two_lt (bs : List Byte) : leNat (bs.take 2) < 65536 := by
  cases bs with
  | nil => simp [leNat]
  | cons a t =>
    cases t with
    | nil =>
      have := a.isLt
      simp only [List.take, leNat]
      omega
    | cons b t2 =>
      have := a.isLt
      have := b.isLt
      simp only [List.take, leNat]
      omega

theorem u16At_lt (bs : List Byte) (off : Nat) : u16At bs off < 65536 :=
  leNat_take_two_lt _

/-- A value returned by the loop of `traverseDir` is -1 or a non-zero 16-bit number. -/
theorem traverseDir_loop_range (s : State) (name : List Byte) (k : Nat) :
    ∀ i r, (traverseDir_loop s name k i).val? = some r → r = -1 ∨ (1 ≤ r ∧ r ≤ 65535) := by
  induction k with
  | zero =>
    intro i r h
    simp only [traverseDir_loop, Run.val?, Option.some.injEq] at h
    left; exact h.symm
  | succ k ih =>
    intro i r
    unfold traverseDir_loop
    cases readBytes s.mem (s.fsptr + i * sizeof_dirent) sizeof_dirent with
    | none => simp [Run.val?]
    | some bs =>
      simp only
      by_cases h0 : (decode_dirent bs).inum = 0
      · simp only [h0, if_true]; exact ih (i + 1) r
      · simp only [h0, if_false]
        by_cases hm : strncmp name (decode_dirent bs).name DIRSIZ = 0
        · simp only [hm, if_true, Run.val?, Option.some.injEq]
          intro h
          right
          have hlt : (decode_dirent bs).inum < 65536 := u16At_lt bs 0
          omega
        · simp only [hm, if_false]; exact ih (i + 1) r

theorem traverseDir_range (s : State) (addr : Nat) (name : List Byte) (r : Int)
    (h : (traverseDir s addr name).val? = some r) : r = -1 ∨ (1 ≤ r ∧ r ≤ 65535) :=
  traverseDir_loop_range _ name _ 0 r h

theorem checkDirOfInode_direct_range (d : dinode) (name : List Byte) (k : Nat) :
    ∀ i s f, (checkDirOfInode_direct d name k i (-1) s).val? = some f →
      match f with
      | .returned v => 1 ≤ v ∧ v ≤ 65535
      | .done res => res = -1 := by
  induction k with
  | zero =>
    intro i s f h
    simp only [checkDirOfInode_direct, Run.val?, Option.some.injEq] at h
    subst h
    rfl
  | succ k ih =>
    intro i s f
    unfold checkDirOfInode_direct
    by_cases h0 : d.addr i = 0
    · simp only [h0, if_true]; exact ih (i + 1) s f
    · simp only [h0, if_false]
      have hr := traverseDir_range s (d.addr i) name
      rw [traverseDir_eq] at hr ⊢
      revert hr
      generalize (traverseDir s (d.addr i) name).val? = v
      cases v with
      | none => simp [Run.val?]
      | some r =>
        intro hr
        simp only
        by_cases hr1 : r = -1
        · simp only [hr1, ne_eq, not_true_eq_false, if_false]
          exact ih (i + 1) _ f
        · simp only [ne_eq, hr1, not_false_eq_true, if_true, Run.val?, Option.some.injEq]
          intro h
          subst h
          rcases hr r rfl with h | h
          · exact absurd h hr1
          · exact h

theorem checkDirOfInode_indirect_range (d : dinode) (name : List Byte) (k : Nat) :
    ∀ i s f, (checkDirOfInode_indirect d name k i (-1) s).val? = some f →
      match f with
      | .returned v => 1 ≤ v ∧ v ≤ 65535
      | .done res => res = -1 := by
  induction k with
  | zero =>
    intro i s f h
    simp only [checkDirOfInode_indirect, Run.val?, Option.some.injEq] at h
    subst h
    rfl
  | succ k ih =>
    intro i s f
    unfold checkDirOfInode_indirect
    simp only
    cases readBytes s.mem ((d.addr NDIRECT * BSIZE) % 2 ^ 32 + i * sizeof_uint) sizeof_uint with
    | none => simp [Run.val?]
    | some bs =>
      simp only
      have hr := traverseDir_range
        { s with fsptr := (d.addr NDIRECT * BSIZE) % 2 ^ 32 + i * sizeof_uint } (u32At bs 0) name
      rw [traverseDir_eq] at hr ⊢
      revert hr
      generalize (traverseDir _ (u32At bs 0) name).val? = v
      cases v with
      | none => simp [Run.val?]
      | some r =>
        intro hr
        simp only
        by_cases hr1 : r = -1
        · simp only [hr1, ne_eq, not_true_eq_false, if_false]
          exact ih (i + 1) _ f
        · simp only [ne_eq, hr1, not_false_eq_true, if_true, Run.val?, Option.some.injEq]
          intro h
          subst h
          rcases hr r rfl with h | h
          · exact absurd h hr1
          · exact h

/-- A value returned by `checkDirOfInode` is -1 or a non-zero 16-bit number. -/
theorem lookup_range (s : State) (d : dinode) (name : List Byte) (r : Int)
    (h : lookup s d name = some r) : r = -1 ∨ (1 ≤ r ∧ r ≤ 65535) := by
  unfold lookup checkDirOfInode at h
  have h1 := checkDirOfInode_direct_range d name NDIRECT 0 s
  rcases Run.frame_cases (checkDirOfInode_direct_frame d name NDIRECT 0 (-1) s) with
    ⟨e, _⟩ | ⟨v, u, e, ev, _⟩
  · rw [e] at h; simp [Run.val?] at h
  · rw [e] at h
    have h1' := h1 v ev
    cases v with
    | returned x =>
      simp only [Run.val?, Option.some.injEq] at h
      subst h
      right; exact h1'
    | done res =>
      simp only at h1'
      subst h1'
      simp only at h
      by_cases hz : d.addr NDIRECT = 0
      · simp only [hz, ne_eq, not_true_eq_false, if_false, Run.val?, Option.some.injEq] at h
        left; exact h.symm
      · simp only [ne_eq, hz, not_false_eq_true, if_true] at h
        have h2 := checkDirOfInode_indirect_range d name NINDIRECT 0
          { u with fsptr := (d.addr NDIRECT * BSIZE) % 2 ^ 32 }
        rcases Run.frame_cases (checkDirOfInode_indirect_frame d name NINDIRECT 0 (-1)
            { u with fsptr := (d.addr NDIRECT * BSIZE) % 2 ^ 32 }) with
          ⟨e', _⟩ | ⟨v', u', e', ev', _⟩
        · rw [e'] at h; simp [Run.val?] at h
        · rw [e'] at h
          have h2' := h2 v' ev'
          cases v' with
          | returned x =>
            simp only [Run.val?, Option.some.injEq] at h
            subst h
            right; exact h2'
          | done res =>
            simp only at h2'
            subst h2'
            simp only [Run.val?, Option.some.injEq] at h
            left; exact h.symm

theorem inodeAt_eq_some {s : State} {i : Nat} {d : dinode} (h : inodeAt s i = some d) :
    ∃ bs, readBytes s.mem (s.map.addr + 2 * BSIZE + i * sizeof_dinode) sizeof_dinode = some bs
      ∧ decode_dinode bs = d := by
  unfold inodeAt imageBytes at h
  rw [Option.map_eq_some'] at h
  obtain ⟨bs, h1, h2⟩ := h
  refine ⟨bs, ?_, h2⟩
  rw [← h1, Nat.add_assoc]

/-- The decision of `check_root` in terms of the two lookups. -/
theorem check_root_cases (s : State) (d : dinode) (hd : inodeAt s 1 = some d) :
    ∃ u : State, check_root s =
      if d.type ≠ T_DIR then .stop (.exit 1 "ERROR: root directory does not exist.\n")
      else match lookup s d dot with
        | none => .stop .fault
        | some r1 =>
          if r1 ≠ 1 then .stop (.exit 1 "ERROR: root directory does not exist.\n")
          else match lookup s d dotdot with
            | none => .stop .fault
            | some r2 =>
              if r2 ≠ 1 then .stop (.exit 1 "ERROR: root directory does not exist.\n")
              else .ok () u := by
  obtain ⟨bs, hb, hdec⟩ := inodeAt_eq_some hd
  rw [Nat.one_mul] at hb
  unfold lookup
  unfold check_root
  simp only [hb, hdec]
  by_cases ht : d.type = T_DIR
  · simp only [ht, ne_eq, not_true_eq_false, if_false]
    have e1 := checkDirOfInode_val_congr s
      { s with fsptr := s.map.addr + 2 * BSIZE + sizeof_dinode, curr_inode := d } d dot rfl rfl
    rcases Run.frame_cases (checkDirOfInode_frame
      { s with fsptr := s.map.addr + 2 * BSIZE + sizeof_dinode, curr_inode := d } d dot) with
      ⟨h, hn⟩ | ⟨v, u, h, hs, h1, h2, h3, h4⟩
    · rw [h, e1, hn]; exact ⟨s, rfl⟩
    · rw [h, e1, hs]
      simp only
      by_cases hv : v = 1
      · simp only [hv, ne_eq, not_true_eq_false, if_false]
        simp only at h1 h2 h4
        have e2 := checkDirOfInode_val_congr s u d dotdot h1.symm (by rw [h2])
        rw [h4, e2]
        rcases Run.frame_cases (checkDirOfInode_frame u d dotdot) with
          ⟨k, kn⟩ | ⟨w, x, k, ks, _⟩
        · rw [kn, k]; exact ⟨s, rfl⟩
        · rw [ks, k]
          simp only
          by_cases hw : w = 1
          · exact ⟨x, by simp [hw]⟩
          · exact ⟨s, by simp [hw]⟩
      · exact ⟨s, by simp [hv]⟩
  · exact ⟨s, by simp [ht]⟩

theorem inodeAt_congr (s t : State) (hm : t.mem = s.mem) (ha : t.map = s.map) (i : Nat) :
    inodeAt t i = inodeAt s i := by
  unfold inodeAt imageBytes
  rw [hm, ha]

theorem check_inode_types_loop_spec (s : State) (k : Nat) :
    ∀ i t, t.mem = s.mem → t.map = s.map →
      (∀ j, i ≤ j → j < i + k → (inodeAt s j).isSome) →
      ((∃ j, i ≤ j ∧ j < i + k ∧ ∃ d, inodeAt s j = some d ∧ BadType d) →
          check_inode_types_loop k i t = .stop (.exit 1 "ERROR: bad inode.\n"))
      ∧ ((¬ ∃ j, i ≤ j ∧ j < i + k ∧ ∃ d, inodeAt s j = some d ∧ BadType d) →
          ∃ u, check_inode_types_loop k i t = .ok () u) := by
  induction k with
  | zero =>
    intro i t _ _ _
    constructor
    · rintro ⟨j, h1, h2, _⟩; omega
    · intro _; exact ⟨t, rfl⟩
  | succ k ih =>
    intro i t hm ha hr
    have hi := hr i (Nat.le_refl i) (by omega)
    obtain ⟨d, hd⟩ := Option.isSome_iff_exists.mp hi
    have hd' : inodeAt t i = some d := by rw [inodeAt_congr s t hm ha, hd]
    obtain ⟨bs, hb, hdec⟩ := inodeAt_eq_some hd'
    unfold check_inode_types_loop
    simp only [hb, hdec]
    by_cases hbad : BadType d
    · have hbad' : d.type ≠ 0 ∧ d.type ≠ T_FILE ∧ d.type ≠ T_DIR ∧ d.type ≠ T_DEV := hbad
      rw [if_pos hbad']
      constructor
      · intro _; trivial
      · intro hne
        exact absurd ⟨i, Nat.le_refl i, by omega, d, hd, hbad⟩ hne
    · have hbad' : ¬ (d.type ≠ 0 ∧ d.type ≠ T_FILE ∧ d.type ≠ T_DIR ∧ d.type ≠ T_DEV) := hbad
      rw [if_neg hbad']
      have := ih (i + 1)
        { t with fsptr := t.map.addr + 2 * BSIZE + i * sizeof_dinode, curr_inode := d } hm ha
        (fun j h1 h2 => hr j (by omega) (by omega))
      constructor
      · rintro ⟨j, h1, h2, e, he, hbe⟩
        apply this.1
        have hji : j ≠ i := by
          intro hji
          subst hji
          rw [hd] at he
          cases he
          exact hbad hbe
        exact ⟨j, by omega, by omega, e, he, hbe⟩
      · intro hne
        apply this.2
        rintro ⟨j, h1, h2, e, he, hbe⟩
        exact hne ⟨j, by omega, by omega, e, he, hbe⟩

theorem toInt_toNat_of_lt (n : Nat) (h : n < 2 ^ 31) : (toInt n).toNat = n := by
  unfold toInt
  have h1 : n % 2 ^ 32 = n := Nat.mod_eq_of_lt (by omega)
  rw [h1, if_pos h]
  exact Int.toNat_ofNat n
theorem check_dir_format_loop_spec (s : State) (k : Nat) :
    ∀ i t, t.mem = s.mem → t.map = s.map →
      (∀ j, i ≤ j → j < i + k → ∃ d, inodeAt s j = some d
          ∧ (d.type = T_DIR → (lookup s d dot).isSome ∧ (lookup s d dotdot).isSome)) →
      ((∃ j, i ≤ j ∧ j < i + k ∧ ∃ d, inodeAt s j = some d ∧ d.type = T_DIR
            ∧ (lookup s d dot ≠ some (j : Int) ∨ lookup s d dotdot = some (-1))) →
          check_dir_format_loop k i t
            = .stop (.exit 1 "ERROR: directory not properly formatted.\n"))
      ∧ ((¬ ∃ j, i ≤ j ∧ j < i + k ∧ ∃ d, inodeAt s j = some d ∧ d.type = T_DIR
            ∧ (lookup s d dot ≠ some (j : Int) ∨ lookup s d dotdot = some (-1))) →
          ∃ u, check_dir_format_loop k i t = .ok () u) := by
  induction k with
  | zero =>
    intro i t _ _ _
    constructor
    · rintro ⟨j, h1, h2, _⟩; omega
    · intro _; exact ⟨t, rfl⟩
  | succ k ih =>
    intro i t hm ha hr
    obtain ⟨d, hd, hl⟩ := hr i (Nat.le_refl i) (by omega)
    have hd' : inodeAt t i = some d := by rw [inodeAt_congr s t hm ha, hd]
    obtain ⟨bs, hb, hdec⟩ := inodeAt_eq_some hd'
    have hr' : ∀ j, i + 1 ≤ j → j < i + 1 + k → ∃ d, inodeAt s j = some d
          ∧ (d.type = T_DIR → (lookup s d dot).isSome ∧ (lookup s d dotdot).isSome) :=
      fun j h1 h2 => hr j (by omega) (by omega)
    -- the inode `i` decides the outcome when it is a malformed directory
    have hhere : d.type = T_DIR → (lookup s d dot ≠ some (i : Int) ∨ lookup s d dotdot = some (-1)) →
        ∃ j, i ≤ j ∧ j < i + (k + 1) ∧ ∃ d, inodeAt s j = some d ∧ d.type = T_DIR
            ∧ (lookup s d dot ≠ some (j : Int) ∨ lookup s d dotdot = some (-1)) :=
      fun h1 h2 => ⟨i, Nat.le_refl i, by omega, d, hd, h1, h2⟩
    -- otherwise the remaining inodes decide
    have hrest : (d.type = T_DIR → ¬ (lookup s d dot ≠ some (i : Int) ∨ lookup s d dotdot = some (-1))) →
        ((∃ j, i ≤ j ∧ j < i + (k + 1) ∧ ∃ d, inodeAt s j = some d ∧ d.type = T_DIR
            ∧ (lookup s d dot ≠ some (j : Int) ∨ lookup s d dotdot = some (-1))) ↔
         (∃ j, i + 1 ≤ j ∧ j < i + 1 + k ∧ ∃ d, inodeAt s j = some d ∧ d.type = T_DIR
            ∧ (lookup s d dot ≠ some (j : Int) ∨ lookup s d dotdot = some (-1)))) := by
      intro hgood
      constructor
      · rintro ⟨j, h1, h2, e, he, het, hbad⟩
        have hji : j ≠ i := by
          intro hji
          subst hji
          rw [hd] at he
          cases he
          exact hgood het hbad
        exact ⟨j, by omega, by omega, e, he, het, hbad⟩
      · rintro ⟨j, h1, h2, rest⟩
        exact ⟨j, by omega, by omega, rest⟩
    unfold check_dir_format_loop
    simp only [hb, hdec]
    by_cases ht : d.type = T_DIR
    · rw [if_pos ht]
      obtain ⟨hA, hB⟩ := hl ht
      obtain ⟨a, hA⟩ := Option.isSome_iff_exists.mp hA
      obtain ⟨b, hB⟩ := Option.isSome_iff_exists.mp hB
      have e1 := checkDirOfInode_val_congr s
        { t with fsptr := t.map.addr + 2 * BSIZE + i * sizeof_dinode, curr_inode := d } d dot
        hm.symm (by rw [ha])
      unfold lookup at hA hB
      rw [hA] at e1
      rcases Run.frame_cases (checkDirOfInode_frame
        { t with fsptr := t.map.addr + 2 * BSIZE + i * sizeof_dinode, curr_inode := d } d dot) with
        ⟨_, hn⟩ | ⟨v, u, h, hs, h1, h2, _, h4⟩
      · rw [hn] at e1; cases e1
      · rw [hs] at e1
        cases e1
        rw [h]
        simp only
        simp only at h1 h2 h4
        by_cases hv : a = (i : Int)
        · rw [if_neg (not_not.mpr hv)]
          have e2 := checkDirOfInode_val_congr s u d dotdot (by rw [h1, hm]) (by rw [h2, ha])
          rw [hB] at e2
          rw [h4]
          rcases Run.frame_cases (checkDirOfInode_frame u d dotdot) with
            ⟨_, kn⟩ | ⟨w, x, k', ks, k1, k2, _, _⟩
          · rw [kn] at e2; cases e2
          · rw [ks] at e2
            cases e2
            rw [k']
            simp only
            by_cases hb0 : b < 0
            · rw [if_pos hb0]
              have hbm : b = -1 := by
                rcases lookup_range s d dotdot b hB with h | h
                · exact h
                · omega
              constructor
              · intro _; trivial
              · intro hne
                exact absurd (hhere ht (Or.inr (by unfold lookup; rw [hB, hbm]))) hne
            · rw [if_neg hb0]
              have hgood : d.type = T_DIR →
                  ¬ (lookup s d dot ≠ some (i : Int) ∨ lookup s d dotdot = some (-1)) := by
                intro _ hbad
                unfold lookup at hbad
                rw [hA, hB] at hbad
                rcases hbad with h | h
                · exact h (by rw [hv])
                · simp only [Option.some.injEq] at h
                  omega
              rw [hrest hgood]
              exact ih (i + 1) x (by rw [k1, h1, hm]) (by rw [k2, h2, ha]) hr'
        · rw [if_pos hv]
          constructor
          · intro _; trivial
          · intro hne
            refine absurd (hhere ht (Or.inl ?_)) hne
            unfold lookup
            rw [hA]
            intro h
            simp only [Option.some.injEq] at h
            exact hv h
    · rw [if_neg ht]
      rw [hrest (fun h => absurd h ht)]
      exact ih (i + 1) _ hm ha hr'
theorem matches_iff (name : List Byte) (e : dirent) :
    Matches name e ↔ e.inum ≠ 0 ∧ strncmp name e.name DIRSIZ = 0 := by
  unfold Matches cstr
  rw [strncmp_eq_zero_iff]

/-- The loop of `traverseDir` in terms of the entries it reads. -/
theorem traverseDir_loop_spec (t : State) (name : List Byte) (k : Nat) :
    ∀ i,
      ((∀ j, i ≤ j → j < i + k → ∃ e,
            (readBytes t.mem (t.fsptr + j * sizeof_dirent) sizeof_dirent).map decode_dirent = some e
              ∧ ¬ Matches name e) →
          (traverseDir_loop t name k i).val? = some (-1))
      ∧ (∀ m e, i ≤ m → m < i + k →
          (readBytes t.mem (t.fsptr + m * sizeof_dirent) sizeof_dirent).map decode_dirent = some e →
          Matches name e →
          (∀ j, i ≤ j → j < m → ∃ f,
            (readBytes t.mem (t.fsptr + j * sizeof_dirent) sizeof_dirent).map decode_dirent = some f
              ∧ ¬ Matches name f) →
          (traverseDir_loop t name k i).val? = some (e.inum : Int)) := by
  induction k with
  | zero =>
    intro i
    constructor
    · intro _; rfl
    · intro m e h1 h2; omega
  | succ k ih =>
    intro i
    constructor
    · intro hall
      obtain ⟨e, he, hne⟩ := hall i (Nat.le_refl i) (by omega)
      rw [Option.map_eq_some'] at he
      obtain ⟨bs, hb, hdec⟩ := he
      unfold traverseDir_loop
      simp only [hb, hdec]
      rw [matches_iff] at hne
      by_cases h0 : e.inum = 0
      · rw [if_pos h0]
        exact (ih (i + 1)).1 (fun j h1 h2 => hall j (by omega) (by omega))
      · rw [if_neg h0]
        have hs : ¬ strncmp name e.name DIRSIZ = 0 := fun h => hne ⟨h0, h⟩
        rw [if_neg hs]
        exact (ih (i + 1)).1 (fun j h1 h2 => hall j (by omega) (by omega))
    · intro m e h1 h2 hm hmatch hbefore
      by_cases hmi : m = i
      · subst hmi
        rw [Option.map_eq_some'] at hm
        obtain ⟨bs, hb, hdec⟩ := hm
        unfold traverseDir_loop
        simp only [hb, hdec]
        rw [matches_iff] at hmatch
        rw [if_neg hmatch.1, if_pos hmatch.2]
        rfl
      · obtain ⟨f, hf, hnf⟩ := hbefore i (Nat.le_refl i) (by omega)
        rw [Option.map_eq_some'] at hf
        obtain ⟨bs, hb, hdec⟩ := hf
        unfold traverseDir_loop
        simp only [hb, hdec]
        rw [matches_iff] at hnf
        have hrec := (ih (i + 1)).2 m e (by omega) (by omega) hm hmatch
          (fun j h1 h2 => hbefore j (by omega) h2)
        by_cases h0 : f.inum = 0
        · rw [if_pos h0]; exact hrec
        · rw [if_neg h0]
          have hs : ¬ strncmp name f.name DIRSIZ = 0 := fun h => hnf ⟨h0, h⟩
          rw [if_neg hs]
          exact hrec

theorem slotAt_eq (s : State) (addr i : Nat) (ha : addr < 2 ^ 23) :
    slotAt s addr i =
      (readBytes s.mem (s.map.addr + (addr * BSIZE) % 2 ^ 32 + i * sizeof_dirent)
        sizeof_dirent).map decode_dirent := by
  unfold slotAt imageBytes
  have h : (addr * BSIZE) % 2 ^ 32 = addr * BSIZE := by
    apply Nat.mod_eq_of_lt
    unfold BSIZE
    omega
  rw [h, Nat.add_assoc]
/-- The loop over the direct addresses in terms of the `traverseDir` results. -/
theorem checkDirOfInode_direct_spec (s : State) (d : dinode) (name : List Byte) (k : Nat) :
    ∀ i t, t.mem = s.mem → t.map.addr = s.map.addr →
      ((∀ j, i ≤ j → j < i + k → d.addr j ≠ 0 →
            (traverseDir s (d.addr j) name).val? = some (-1)) →
          (checkDirOfInode_direct d name k i (-1) t).val? = some (.done (-1)))
      ∧ (∀ m r, i ≤ m → m < i + k → d.addr m ≠ 0 →
          (traverseDir s (d.addr m) name).val? = some r → r ≠ -1 →
          (∀ j, i ≤ j → j < m → d.addr j ≠ 0 →
            (traverseDir s (d.addr j) name).val? = some (-1)) →
          (checkDirOfInode_direct d name k i (-1) t).val? = some (.returned r)) := by
  induction k with
  | zero =>
    intro i t _ _
    constructor
    · intro _; rfl
    · intro m r h1 h2; omega
  | succ k ih =>
    intro i t hm ha
    have step : ∀ v, d.addr i ≠ 0 → (traverseDir s (d.addr i) name).val? = some v →
        traverseDir t (d.addr i) name
          = .ok v { t with fsptr := t.map.addr + (d.addr i * BSIZE) % 2 ^ 32 } := by
      intro v _ hv
      rw [traverseDir_eq, traverseDir_val_congr t s _ _ hm ha, hv]
    constructor
    · intro hall
      unfold checkDirOfInode_direct
      by_cases h0 : d.addr i = 0
      · rw [if_pos h0]
        exact (ih (i + 1) t hm ha).1 (fun j h1 h2 => hall j (by omega) (by omega))
      · rw [if_neg h0, step (-1) h0 (hall i (Nat.le_refl i) (by omega) h0)]
        simp only [ne_eq, not_true_eq_false, if_false]
        exact (ih (i + 1) { t with fsptr := t.map.addr + (d.addr i * BSIZE) % 2 ^ 32 } hm ha).1
          (fun j h1 h2 => hall j (by omega) (by omega))
    · intro m r h1 h2 hmz hmr hr hbefore
      unfold checkDirOfInode_direct
      by_cases hmi : m = i
      · subst hmi
        rw [if_neg hmz, step r hmz hmr]
        simp only [ne_eq, hr, not_false_eq_true, if_true]
        rfl
      · by_cases h0 : d.addr i = 0
        · rw [if_pos h0]
          exact (ih (i + 1) t hm ha).2 m r (by omega) (by omega) hmz hmr hr
            (fun j h1 h2 => hbefore j (by omega) h2)
        · rw [if_neg h0, step (-1) h0 (hbefore i (Nat.le_refl i) (by omega) h0)]
          simp only [ne_eq, not_true_eq_false, if_false]
          exact (ih (i + 1) { t with fsptr := t.map.addr + (d.addr i * BSIZE) % 2 ^ 32 } hm ha).2
            m r (by omega) (by omega) hmz hmr hr
            (fun j h1 h2 => hbefore j (by omega) h2)

theorem strncmp_eq_zero_iff_cstr (name field : List Byte) :
    strncmp name field DIRSIZ = 0 ↔ cstr name = cstr field := by
  unfold cstr
  exact strncmp_eq_zero_iff DIRSIZ name field

theorem traverseDir_loop_name_congr (t : State) (name1 name2 : List Byte)
    (h : cstr name1 = cstr name2) (k : Nat) :
    ∀ i, traverseDir_loop t name1 k i = traverseDir_loop t name2 k i := by
  induction k with
  | zero => intro i; rfl
  | succ k ih =>
    intro i
    unfold traverseDir_loop
    cases readBytes t.mem (t.fsptr + i * sizeof_dirent) sizeof_dirent with
    | none => rfl
    | some bs =>
      simp only
      have hc : (strncmp name1 (decode_dirent bs).name DIRSIZ = 0)
          ↔ (strncmp name2 (decode_dirent bs).name DIRSIZ = 0) := by
        rw [strncmp_eq_zero_iff_cstr, strncmp_eq_zero_iff_cstr, h]
      rw [ih (i + 1)]
      by_cases h2 : strncmp name2 (decode_dirent bs).name DIRSIZ = 0
      · rw [if_pos h2, if_pos (hc.mpr h2)]
      · rw [if_neg h2, if_neg (fun h1 => h2 (hc.mp h1))]

theorem cstr_append_nul (pre junk : List Byte) (hpre : ∀ b ∈ pre, b ≠ 0) :
    cstr (pre ++ 0 :: junk) = pre.take DIRSIZ := by
  unfold cstr
  congr 1
  induction pre with
  | nil => simp
  | cons a t ih =>
    have ha : a ≠ 0 := hpre a (List.mem_cons_self a t)
    simp only [List.cons_append, List.takeWhile_cons, ne_eq, ha, not_false_eq_true, decide_True,
      if_true]
    rw [ih (fun b hb => hpre b (List.mem_cons_of_mem a hb))]

theorem cstr_of_full (field extra : List Byte) (hlen : field.length = DIRSIZ)
    (hnz : ∀ b ∈ field, b ≠ 0) : cstr (field ++ extra) = field := by
  unfold cstr
  have h1 : ∀ (l e : List Byte), (∀ b ∈ l, b ≠ 0) →
      (List.takeWhile (fun b => decide (b ≠ 0)) (l ++ e)).take l.length = l := by
    intro l
    induction l with
    | nil => intro e _; simp
    | cons a t ih =>
      intro e h
      have ha : a ≠ 0 := h a (List.mem_cons_self a t)
      simp only [List.cons_append, List.takeWhile_cons, ne_eq, ha, not_false_eq_true,
        decide_True, if_true, List.length_cons, List.take_succ_cons]
      rw [ih e (fun b hb => h b (List.mem_cons_of_mem a hb))]
  rw [← hlen]
  exact h1 field extra hnz
/-! ### The diagnostics of the three checks -/

theorem check_inode_types_loop_stop (k : Nat) : ∀ i s o,
    check_inode_types_loop k i s = .stop o →
      o = .exit 1 "ERROR: bad inode.\n" ∨ o = .fault := by
  induction k with
  | zero => intro i s o h; cases h
  | succ k ih =>
    intro i s o
    unfold check_inode_types_loop
    simp only
    cases readBytes s.mem (s.map.addr + 2 * BSIZE + i * sizeof_dinode) sizeof_dinode with
    | none =>
      intro h
      cases h
      right; rfl
    | some bs =>
      simp only
      split
      · intro h
        cases h
        left; rfl
      · exact ih (i + 1) _ o

theorem check_root_stop (s : State) (o : Outcome) (h : check_root s = .stop o) :
    o = .exit 1 "ERROR: root directory does not exist.\n" ∨ o = .fault := by
  unfold check_root at h
  simp only at h
  cases hb : readBytes s.mem (s.map.addr + 2 * BSIZE + sizeof_dinode) sizeof_dinode with
  | none =>
    rw [hb] at h
    cases h
    right; rfl
  | some bs =>
    rw [hb] at h
    simp only at h
    split at h
    · cases h
      left; rfl
    · rcases Run.frame_cases (checkDirOfInode_frame
        { s with fsptr := s.map.addr + 2 * BSIZE + sizeof_dinode,
                 curr_inode := decode_dinode bs } (decode_dinode bs) dot) with
        ⟨e, _⟩ | ⟨v, u, e, _⟩
      · rw [e] at h
        cases h
        right; rfl
      · rw [e] at h
        simp only at h
        split at h
        · cases h
          left; rfl
        · rcases Run.frame_cases (checkDirOfInode_frame u u.curr_inode dotdot) with
            ⟨e', _⟩ | ⟨v', u', e', _⟩
          · rw [e'] at h
            cases h
            right; rfl
          · rw [e'] at h
            simp only at h
            split at h
            · cases h
              left; rfl
            · cases h

theorem check_dir_format_loop_stop (k : Nat) : ∀ i s o,
    check_dir_format_loop k i s = .stop o →
      o = .exit 1 "ERROR: directory not properly formatted.\n" ∨ o = .fault := by
  induction k with
  | zero => intro i s o h; cases h
  | succ k ih =>
    intro i s o
    unfold check_dir_format_loop
    simp only
    cases readBytes s.mem (s.map.addr + 2 * BSIZE + i * sizeof_dinode) sizeof_dinode with
    | none =>
      intro h
      cases h
      right; rfl
    | some bs =>
      simp only
      split
      · rcases Run.frame_cases (checkDirOfInode_frame
          { s with fsptr := s.map.addr + 2 * BSIZE + i * sizeof_dinode,
                   curr_inode := decode_dinode bs } (decode_dinode bs) dot) with
          ⟨e, _⟩ | ⟨v, u, e, _⟩
        · rw [e]
          intro h
          cases h
          right; rfl
        · rw [e]
          simp only
          split
          · intro h
            cases h
            left; rfl
          · rcases Run.frame_cases (checkDirOfInode_frame u u.curr_inode dotdot) with
              ⟨e', _⟩ | ⟨v', u', e', _⟩
            · rw [e']
              intro h
              cases h
              right; rfl
            · rw [e']
              simp only
              split
              · intro h
                cases h
                left; rfl
              · exact ih (i + 1) _ o
      · exact ih (i + 1) _ o

/-! ### The indirect loop -/

/-- When the direct loop finds nothing and the inode has an indirect address,
`checkDirOfInode` continues with the indirect loop. -/
theorem checkDirOfInode_enters_indirect (s : State) (d : dinode) (name : List Byte)
    (hz : d.addr NDIRECT ≠ 0)
    (hdirect : ∀ k, k < NDIRECT → d.addr k ≠ 0 →
      (traverseDir s (d.addr k) name).val? = some (-1)) :
    ∃ u : State, u.mem = s.mem ∧ u.map = s.map ∧
      checkDirOfInode s d name =
        match checkDirOfInode_indirect d name NINDIRECT 0 (-1)
            { u with fsptr := (d.addr NDIRECT * BSIZE) % 2 ^ 32 } with
        | .stop o => .stop o
        | .ok (.returned v) s3 => .ok v s3
        | .ok (.done result1) s3 => .ok result1 s3 := by
  have h1 := (checkDirOfInode_direct_spec s d name NDIRECT 0 s rfl rfl).1
    (fun j _ h2 h3 => hdirect j (by omega) h3)
  rcases Run.frame_cases (checkDirOfInode_direct_frame d name NDIRECT 0 (-1) s) with
    ⟨_, hn⟩ | ⟨v, u, h, hs, hm, ha, _⟩
  · rw [hn] at h1; cases h1
  · rw [hs] at h1
    cases h1
    refine ⟨u, hm, ha, ?_⟩
    unfold checkDirOfInode
    rw [h]
    simp only [ne_eq, hz, not_false_eq_true, if_true]

/-- The indirect block is read at the absolute address `addrs[NDIRECT] * BSIZE`: when
that address is not mapped the lookup faults. -/
theorem checkDirOfInode_indirect_unmapped (s : State) (d : dinode) (name : List Byte)
    (hz : d.addr NDIRECT ≠ 0)
    (hdirect : ∀ k, k < NDIRECT → d.addr k ≠ 0 →
      (traverseDir s (d.addr k) name).val? = some (-1))
    (hun : s.mem ((d.addr NDIRECT * BSIZE) % 2 ^ 32) = none) :
    checkDirOfInode s d name = .stop .fault := by
  obtain ⟨u, hm, _, hu⟩ := checkDirOfInode_enters_indirect s d name hz hdirect
  rw [hu]
  have hN : NINDIRECT = 127 + 1 := rfl
  rw [hN]
  unfold checkDirOfInode_indirect
  simp only [Nat.zero_mul, Nat.add_zero]
  have hr : readBytes u.mem ((d.addr NDIRECT * BSIZE) % 2 ^ 32) sizeof_uint = none := by
    have h4 : sizeof_uint = 3 + 1 := rfl
    rw [h4]
    unfold readBytes
    rw [hm, hun]
  rw [hr]

/-- The indirect loop has no test for a zero entry: when the first word it reads is 0
it searches block 0 of the image and returns what it finds there. -/
theorem checkDirOfInode_indirect_zero_word (s : State) (d : dinode) (name : List Byte)
    (bs : List Byte) (r : Int)
    (hz : d.addr NDIRECT ≠ 0)
    (hdirect : ∀ k, k < NDIRECT → d.addr k ≠ 0 →
      (traverseDir s (d.addr k) name).val? = some (-1))
    (hread : readBytes s.mem ((d.addr NDIRECT * BSIZE) % 2 ^ 32) sizeof_uint = some bs)
    (hzero : u32At bs 0 = 0)
    (hfound : (traverseDir s 0 name).val? = some r) (hr : r ≠ -1) :
    lookup s d name = some r := by
  obtain ⟨u, hm, ha, hu⟩ := checkDirOfInode_enters_indirect s d name hz hdirect
  unfold lookup
  rw [hu]
  have hN : NINDIRECT = 127 + 1 := rfl
  rw [hN]
  unfold checkDirOfInode_indirect
  simp only [Nat.zero_mul, Nat.add_zero]
  have hread1 : readBytes u.mem ((d.addr NDIRECT * BSIZE) % 2 ^ 32) sizeof_uint = some bs := by
    rw [hm]; exact hread
  rw [hread1]
  simp only [hzero]
  have hv := traverseDir_val_congr
    { u with fsptr := (d.addr NDIRECT * BSIZE) % 2 ^ 32 } s 0 name hm (by rw [ha])
  rw [hfound] at hv
  rw [traverseDir_eq, hv]
  simp only [ne_eq, hr, not_false_eq_true, if_true, Run.val?]

/-! ### Independence from the scratch globals -/

/-- Two calls of `checkDirOfInode` on states with the same memory and the same place of
the mapping fault together or return the same value, each in a state that differs
from its start state at most in `fsptr`. -/
theorem checkDirOfInode_sim (s t : State) (d : dinode) (name : List Byte)
    (hm : s.mem = t.mem) (ha : s.map.addr = t.map.addr) :
    (checkDirOfInode s d name = .stop .fault ∧ checkDirOfInode t d name = .stop .fault)
    ∨ ∃ v u w, checkDirOfInode s d name = .ok v u ∧ checkDirOfInode t d name = .ok v w
        ∧ (u.mem = s.mem ∧ u.map = s.map ∧ u.sb = s.sb ∧ u.curr_inode = s.curr_inode)
        ∧ (w.mem = t.mem ∧ w.map = t.map ∧ w.sb = t.sb ∧ w.curr_inode = t.curr_inode) := by
  have hv := checkDirOfInode_val_congr s t d name hm ha
  rcases Run.frame_cases (checkDirOfInode_frame s d name) with
    ⟨h, hn⟩ | ⟨v, u, h, hs, hu⟩ <;>
  rcases Run.frame_cases (checkDirOfInode_frame t d name) with
    ⟨k, kn⟩ | ⟨v', w, k, ks, hw⟩
  · left; exact ⟨h, k⟩
  · rw [hn, ks] at hv; cases hv
  · rw [hs, kn] at hv; cases hv
  · rw [hs, ks] at hv
    cases hv
    right
    exact ⟨v, u, w, h, k, hu, hw⟩

theorem check_inode_types_loop_sim (k : Nat) : ∀ i s t,
    s.mem = t.mem → s.map.addr = t.map.addr → s.sb = t.sb →
    (check_inode_types_loop k i s).Sim (check_inode_types_loop k i t) := by
  induction k with
  | zero => intro i s t hm ha hs; exact ⟨hm, ha, hs⟩
  | succ k ih =>
    intro i s t hm ha hs
    unfold check_inode_types_loop
    simp only
    have hrd : readBytes s.mem (s.map.addr + 2 * BSIZE + i * sizeof_dinode) sizeof_dinode
        = readBytes t.mem (t.map.addr + 2 * BSIZE + i * sizeof_dinode) sizeof_dinode := by
      rw [hm, ha]
    rw [hrd]
    cases readBytes t.mem (t.map.addr + 2 * BSIZE + i * sizeof_dinode) sizeof_dinode with
    | none => simp [Run.Sim]
    | some bs =>
      simp only
      split
      · simp [Run.Sim]
      · exact ih (i + 1) _ _ hm ha hs

theorem check_root_sim (s t : State)
    (hm : s.mem = t.mem) (ha : s.map.addr = t.map.addr) (hs : s.sb = t.sb) :
    (check_root s).Sim (check_root t) := by
  unfold check_root
  simp only
  have hrd : readBytes s.mem (s.map.addr + 2 * BSIZE + sizeof_dinode) sizeof_dinode
      = readBytes t.mem (t.map.addr + 2 * BSIZE + sizeof_dinode) sizeof_dinode := by
    rw [hm, ha]
  rw [hrd]
  cases readBytes t.mem (t.map.addr + 2 * BSIZE + sizeof_dinode) sizeof_dinode with
  | none => simp [Run.Sim]
  | some bs =>
    simp only
    split
    · simp [Run.Sim]
    · rcases checkDirOfInode_sim
          { s with fsptr := s.map.addr + 2 * BSIZE + sizeof_dinode,
                   curr_inode := decode_dinode bs }
          { t with fsptr := t.map.addr + 2 * BSIZE + sizeof_dinode,
                   curr_inode := decode_dinode bs }
          (decode_dinode bs) dot hm ha with
        ⟨h1, h2⟩ | ⟨v, u, w, h1, h2, ⟨u1, u2, u3, u4⟩, ⟨w1, w2, w3, w4⟩⟩
      · rw [h1, h2]; simp [Run.Sim]
      · rw [h1, h2]
        simp only
        split
        · simp [Run.Sim]
        · simp only at u1 u2 u3 u4 w1 w2 w3 w4
          rw [u4, w4]
          rcases checkDirOfInode_sim u w (decode_dinode bs) dotdot
              (by rw [u1, w1, hm]) (by rw [u2, w2, ha]) with
            ⟨k1, k2⟩ | ⟨v', x, y, k1, k2, ⟨x1, x2, x3, _⟩, ⟨y1, y2, y3, _⟩⟩
          · rw [k1, k2]; simp [Run.Sim]
          · rw [k1, k2]
            simp only
            split
            · simp [Run.Sim]
            · exact ⟨by rw [x1, y1, u1, w1, hm], by rw [x2, y2, u2, w2, ha],
                by rw [x3, y3, u3, w3, hs]⟩

theorem check_dir_format_loop_sim (k : Nat) : ∀ i s t,
    s.mem = t.mem → s.map.addr = t.map.addr → s.sb = t.sb →
    (check_dir_format_loop k i s).Sim (check_dir_format_loop k i t) := by
  induction k with
  | zero => intro i s t hm ha hs; exact ⟨hm, ha, hs⟩
  | succ k ih =>
    intro i s t hm ha hs
    unfold check_dir_format_loop
    simp only
    have hrd : readBytes s.mem (s.map.addr + 2 * BSIZE + i * sizeof_dinode) sizeof_dinode
        = readBytes t.mem (t.map.addr + 2 * BSIZE + i * sizeof_dinode) sizeof_dinode := by
      rw [hm, ha]
    rw [hrd]
    cases readBytes t.mem (t.map.addr + 2 * BSIZE + i * sizeof_dinode) sizeof_dinode with
    | none => simp [Run.Sim]
    | some bs =>
      simp only
      split
      · rcases checkDirOfInode_sim
            { s with fsptr := s.map.addr + 2 * BSIZE + i * sizeof_dinode,
                     curr_inode := decode_dinode bs }
            { t with fsptr := t.map.addr + 2 * BSIZE + i * sizeof_dinode,
                     curr_inode := decode_dinode bs }
            (decode_dinode bs) dot hm ha with
          ⟨h1, h2⟩ | ⟨v, u, w, h1, h2, ⟨u1, u2, u3, u4⟩, ⟨w1, w2, w3, w4⟩⟩
        · rw [h1, h2]; simp [Run.Sim]
        · rw [h1, h2]
          simp only
          split
          · simp [Run.Sim]
          · simp only at u1 u2 u3 u4 w1 w2 w3 w4
            rw [u4, w4]
            rcases checkDirOfInode_sim u w (decode_dinode bs) dotdot
                (by rw [u1, w1, hm]) (by rw [u2, w2, ha]) with
              ⟨k1, k2⟩ | ⟨v', x, y, k1, k2, ⟨x1, x2, x3, _⟩, ⟨y1, y2, y3, _⟩⟩
            · rw [k1, k2]; simp [Run.Sim]
            · rw [k1, k2]
              simp only
              split
              · simp [Run.Sim]
              · exact ih (i + 1) x y (by rw [x1, y1, u1, w1, hm]) (by rw [x2, y2, u2, w2, ha])
                  (by rw [x3, y3, u3, w3, hs])
      · exact ih (i + 1) _ _ hm ha hs

/-- The verdict of `main` depends only on the memory and on the place of the mapping. -/
theorem main_congr (s t : State) (hm : s.mem = t.mem) (ha : s.map.addr = t.map.addr) :
    main s = main t := by
  unfold main copy_superblock
  have hrd : readBytes s.mem (s.map.addr + BSIZE) sizeof_superblock
      = readBytes t.mem (t.map.addr + BSIZE) sizeof_superblock := by
    rw [hm, ha]
  rw [hrd]
  cases readBytes t.mem (t.map.addr + BSIZE) sizeof_superblock with
  | none => rfl
  | some bs =>
    simp only
    have h1 : (check_inode_types { s with sb := decode_superblock bs }).Sim
        (check_inode_types { t with sb := decode_superblock bs }) :=
      check_inode_types_loop_sim _ 0 _ _ hm ha rfl
    revert h1
    cases check_inode_types { s with sb := decode_superblock bs } with
    | stop o =>
      cases check_inode_types { t with sb := decode_superblock bs } with
      | stop p => intro h; simp only [Run.Sim] at h; simp [h]
      | ok _ w => intro h; simp [Run.Sim] at h
    | ok _ u =>
      cases check_inode_types { t with sb := decode_superblock bs } with
      | stop p => intro h; simp [Run.Sim] at h
      | ok _ w =>
        intro h
        simp only [Run.Sim] at h
        simp only
        have h2 := check_root_sim u w h.1 h.2.1 h.2.2
        revert h2
        cases check_root u with
        | stop o =>
          cases check_root w with
          | stop p => intro h; simp only [Run.Sim] at h; simp [h]
          | ok _ w2 => intro h; simp [Run.Sim] at h
        | ok _ u2 =>
          cases check_root w with
          | stop p => intro h; simp [Run.Sim] at h
          | ok _ w2 =>
            intro h'
            simp only [Run.Sim] at h'
            simp only
            have h3 : (check_dir_format u2).Sim (check_dir_format w2) := by
              unfold check_dir_format
              rw [h'.2.2]
              exact check_dir_format_loop_sim _ 0 _ _ h'.1 h'.2.1 h'.2.2
            revert h3
            cases check_dir_format u2 with
            | stop o =>
              cases check_dir_format w2 with
              | stop p => intro h; simp only [Run.Sim] at h; simp [h]
              | ok _ w3 => intro h; simp [Run.Sim] at h
            | ok _ u3 =>
              cases check_dir_format w2 with
              | stop p => intro h; simp [Run.Sim] at h
              | ok _ w3 => intro _; rfl

/-! ### The outcomes of `main` -/

/-- The only outputs of `main` are the diagnostics of the three implemented checks. -/
theorem main_outcome_cases (s : State) :
    main s = .exit 0 "" ∨ main s = .exit 1 "ERROR: bad inode.\n"
      ∨ main s = .exit 1 "ERROR: root directory does not exist.\n"
      ∨ main s = .exit 1 "ERROR: directory not properly formatted.\n"
      ∨ main s = .fault := by
  unfold main copy_superblock
  cases readBytes s.mem (s.map.addr + BSIZE) sizeof_superblock with
  | none => right; right; right; right; rfl
  | some bs =>
    simp only
    cases h1 : check_inode_types { s with sb := decode_superblock bs } with
    | stop o =>
      simp only
      rcases check_inode_types_loop_stop _ _ _ _ h1 with h | h
      · right; left; exact h
      · right; right; right; right; exact h
    | ok v s2 =>
      simp only
      cases h2 : check_root s2 with
      | stop o =>
        simp only
        rcases check_root_stop _ _ h2 with h | h
        · right; right; left; exact h
        · right; right; right; right; exact h
      | ok v2 s3 =>
        simp only
        cases h3 : check_dir_format s3 with
        | stop o =>
          simp only
          rcases check_dir_format_loop_stop _ _ _ _ h3 with h | h
          · right; right; right; left; exact h
          · right; right; right; right; exact h
        | ok v3 s4 => left; rfl

theorem readBytes_eq_none_of_unmapped (mem : Nat → Option Byte) (n : Nat) :
    ∀ a k, k < n → mem (a + k) = none → readBytes mem a n = none := by
  induction n with
  | zero => intro a k hk; omega
  | succ n ih =>
    intro a k hk hun
    unfold readBytes
    cases k with
    | zero =>
      rw [Nat.add_zero] at hun
      rw [hun]
    | succ k =>
      cases mem a with
      | none => rfl
      | some b =>
        simp only
        have : a + (k + 1) = a + 1 + k := by omega
        rw [this] at hun
        rw [ih (a + 1) k (by omega) hun]

theorem readBytes_congr_range (m1 m2 : Nat → Option Byte) (n : Nat) :
    ∀ a, (∀ k, k < n → m1 (a + k) = m2 (a + k)) → readBytes m1 a n = readBytes m2 a n := by
  induction n with
  | zero => intro a _; rfl
  | succ n ih =>
    intro a h
    unfold readBytes
    have h0 := h 0 (by omega)
    rw [Nat.add_zero] at h0
    rw [h0, ih (a + 1) (fun k hk => by
      have := h (k + 1) (by omega)
      have e : a + (k + 1) = a + 1 + k := by omega
      rw [e] at this
      exact this)]

/-- The loop of `traverseDir` reads only the `BSIZE` bytes that start at `fsptr`. -/
theorem traverseDir_loop_congr_range (s t : State) (name : List Byte)
    (hf : s.fsptr = t.fsptr)
    (hm : ∀ k, k < BSIZE → s.mem (s.fsptr + k) = t.mem (s.fsptr + k)) (k : Nat) :
    ∀ i, i + k ≤ BSIZE / sizeof_dirent →
      (traverseDir_loop s name k i).val? = (traverseDir_loop t name k i).val? := by
  induction k with
  | zero => intro i _; rfl
  | succ k ih =>
    intro i hi
    have hi' : i < 32 := by
      have : BSIZE / sizeof_dirent = 32 := rfl
      omega
    unfold traverseDir_loop
    have hrd : readBytes s.mem (s.fsptr + i * sizeof_dirent) sizeof_dirent
        = readBytes t.mem (t.fsptr + i * sizeof_dirent) sizeof_dirent := by
      rw [← hf]
      apply readBytes_congr_range
      intro j hj
      have hj' : j < 16 := hj
      have e : s.fsptr + i * sizeof_dirent + j = s.fsptr + (i * 16 + j) := by
        unfold sizeof_dirent; omega
      rw [e]
      apply hm
      unfold BSIZE
      omega
    rw [hrd]
    cases readBytes t.mem (t.fsptr + i * sizeof_dirent) sizeof_dirent with
    | none => rfl
    | some bs =>
      simp only
      have hrec := ih (i + 1) (by omega)
      split
      · exact hrec
      · split
        · rfl
        · exact hrec

/-- The result of `traverseDir(addr, name)` depends only on the `BSIZE` image bytes at
offset `(addr * BSIZE) mod 2^32`. -/
theorem traverseDir_congr_block (s t : State) (addr : Nat) (name : List Byte)
    (ha : s.map.addr = t.map.addr)
    (hm : ∀ k, k < BSIZE →
      s.mem (s.map.addr + (addr * BSIZE) % 2 ^ 32 + k)
        = t.mem (s.map.addr + (addr * BSIZE) % 2 ^ 32 + k)) :
    (traverseDir s addr name).val? = (traverseDir t addr name).val? := by
  unfold traverseDir
  apply traverseDir_loop_congr_range
  · simp only [ha]
  · exact hm
  · have : BSIZE / sizeof_dirent = 32 := rfl
    omega

theorem mul_BSIZE_mod (addr : Nat) :
    (addr * BSIZE) % 2 ^ 32 = (addr % 2 ^ 23) * BSIZE := by
  unfold BSIZE
  omega

theorem check_root_frame (s u : State) (h : check_root s = .ok () u) :
    u.mem = s.mem ∧ u.map = s.map ∧ u.sb = s.sb := by
  unfold check_root at h
  simp only at h
  cases hb : readBytes s.mem (s.map.addr + 2 * BSIZE + sizeof_dinode) sizeof_dinode with
  | none => rw [hb] at h; cases h
  | some bs =>
    rw [hb] at h
    simp only at h
    split at h
    · cases h
    · rcases Run.frame_cases (checkDirOfInode_frame
        { s with fsptr := s.map.addr + 2 * BSIZE + sizeof_dinode,
                 curr_inode := decode_dinode bs } (decode_dinode bs) dot) with
        ⟨e, _⟩ | ⟨v, w, e, _, w1, w2, w3, _⟩
      · rw [e] at h; cases h
      · rw [e] at h
        simp only at h
        split at h
        · cases h
        · rcases Run.frame_cases (checkDirOfInode_frame w w.curr_inode dotdot) with
            ⟨e', _⟩ | ⟨v', x, e', _, x1, x2, x3, _⟩
          · rw [e'] at h; cases h
          · rw [e'] at h
            simp only at h
            split at h
            · cases h
            · cases h
              exact ⟨by rw [x1, w1], by rw [x2, w2], by rw [x3, w3]⟩

theorem toInt_toNat_of_ge (n : Nat) (h1 : 2 ^ 31 ≤ n) (h2 : n < 2 ^ 32) :
    (toInt n).toNat = 0 := by
  unfold toInt
  have hmod : n % 2 ^ 32 = n := Nat.mod_eq_of_lt h2
  rw [hmod, if_neg (by omega)]
  apply Int.toNat_eq_zero.mpr
  omega

theorem isValidDataBlock_loop_zero (d : dinode) (lo hi : Nat) (k : Nat) :
    ∀ i v, isValidDataBlock_loop d lo hi k i = some v → v = 0 := by
  induction k with
  | zero => intro i v h; cases h
  | succ k ih =>
    intro i v
    unfold isValidDataBlock_loop
    split
    · intro h
      cases h
      rfl
    · exact ih (i + 1) v

/-- The loop of `traverseDir` uses the memory only through the entries it decodes. -/
theorem traverseDir_loop_congr_slots (s t : State) (name : List Byte) (k : Nat) :
    ∀ i,
      (∀ j, i ≤ j → j < i + k →
        (readBytes s.mem (s.fsptr + j * sizeof_dirent) sizeof_dirent).map decode_dirent
          = (readBytes t.mem (t.fsptr + j * sizeof_dirent) sizeof_dirent).map decode_dirent) →
      (traverseDir_loop s name k i).val? = (traverseDir_loop t name k i).val? := by
  induction k with
  | zero => intro i _; rfl
  | succ k ih =>
    intro i h
    have hi := h i (Nat.le_refl i) (by omega)
    have hrec := ih (i + 1) (fun j h1 h2 => h j (by omega) (by omega))
    unfold traverseDir_loop
    cases hs : readBytes s.mem (s.fsptr + i * sizeof_dirent) sizeof_dirent with
    | none =>
      rw [hs] at hi
      cases ht : readBytes t.mem (t.fsptr + i * sizeof_dirent) sizeof_dirent with
      | none => rfl
      | some bt => rw [ht] at hi; cases hi
    | some bs =>
      rw [hs] at hi
      cases ht : readBytes t.mem (t.fsptr + i * sizeof_dirent) sizeof_dirent with
      | none => rw [ht] at hi; cases hi
      | some bt =>
        rw [ht] at hi
        simp only [Option.map_some', Option.some.injEq] at hi
        simp only [hi]
        split
        · exact hrec
        · split
          · rfl
          · exact hrec

/-- The entry that `traverseDir(addr, name)` reads in iteration `i` is slot `i` of block
`addr mod 2^23` of the image. -/
theorem slotAt_mod_eq (s : State) (addr i : Nat) :
    (readBytes s.mem (s.map.addr + (addr * BSIZE) % 2 ^ 32 + i * sizeof_dirent)
        sizeof_dirent).map decode_dirent
      = slotAt s (addr % 2 ^ 23) i := by
  unfold slotAt imageBytes
  have e : s.map.addr + (addr * BSIZE) % 2 ^ 32 + i * sizeof_dirent
      = s.map.addr + (addr % 2 ^ 23 * BSIZE + i * sizeof_dirent) := by
    unfold BSIZE sizeof_dirent
    omega
  rw [e]

theorem traverseDir_congr_slots (s t : State) (addr : Nat) (name : List Byte)
    (h : ∀ i, i < BSIZE / sizeof_dirent →
      slotAt s (addr % 2 ^ 23) i = slotAt t (addr % 2 ^ 23) i) :
    (traverseDir s addr name).val? = (traverseDir t addr name).val? := by
  unfold traverseDir
  apply traverseDir_loop_congr_slots
  intro j _ hj
  simp only
  rw [slotAt_mod_eq s addr j, slotAt_mod_eq t addr j]
  exact h j (by omega)

/-- C1, amended: for a superblock with `ninodes < 2^31` and an image in which the
inode records `0 .. ninodes-1` are all readable, `check_inode_types` stops with status 1
and the text `ERROR: bad inode.` if and only if some inode `i < ninodes`, decoded from
the 64-byte record at image byte offset `2*BSIZE + 64*i`, has a type that is none of
0, `T_FILE`, `T_DIR`, `T_DEV`; otherwise it returns. -/
theorem check_inode_types_spec (s : State) (hn : s.sb.ninodes < 2 ^ 31)
    (hr : ∀ i, i < s.sb.ninodes → (inodeAt s i).isSome) :
    (check_inode_types s = .stop (.exit 1 "ERROR: bad inode.\n") ↔
        ∃ i, i < s.sb.ninodes ∧ ∃ d, inodeAt s i = some d ∧ BadType d)
    ∧ ((¬ ∃ i, i < s.sb.ninodes ∧ ∃ d, inodeAt s i = some d ∧ BadType d) →
        ∃ u, check_inode_types s = .ok () u) := by
  unfold check_inode_types
  rw [toInt_toNat_of_lt _ hn]
  have key := check_inode_types_loop_spec s s.sb.ninodes 0 s rfl rfl
    (fun j _ h2 => hr j (by omega))
  have hiff : (∃ j, 0 ≤ j ∧ j < 0 + s.sb.ninodes ∧ ∃ d, inodeAt s j = some d ∧ BadType d) ↔
      ∃ i, i < s.sb.ninodes ∧ ∃ d, inodeAt s i = some d ∧ BadType d := by
    constructor
    · rintro ⟨j, _, h2, h3⟩; exact ⟨j, by omega, h3⟩
    · rintro ⟨j, h2, h3⟩; exact ⟨j, by omega, by omega, h3⟩
  rw [hiff] at key
  refine ⟨⟨?_, key.1⟩, key.2⟩
  intro h
  by_contra hne
  obtain ⟨u, hu⟩ := key.2 hne
  rw [hu] at h
  cases h

/-- The hypotheses of `check_inode_types_spec` hold for the well-formed sample image. -/
theorem check_inode_types_spec_witness :
    (loaded goodState).sb.ninodes < 2 ^ 31
    ∧ (∀ i, i < (loaded goodState).sb.ninodes → (inodeAt (loaded goodState) i).isSome)
    ∧ ((check_inode_types (loaded goodState) = .stop (.exit 1 "ERROR: bad inode.\n") ↔
        ∃ i, i < (loaded goodState).sb.ninodes
          ∧ ∃ d, inodeAt (loaded goodState) i = some d ∧ BadType d)
      ∧ ((¬ ∃ i, i < (loaded goodState).sb.ninodes
            ∧ ∃ d, inodeAt (loaded goodState) i = some d ∧ BadType d) →
        ∃ u, check_inode_types (loaded goodState) = .ok () u)) :=
  ⟨by decide, by decide, check_inode_types_spec (loaded goodState) (by decide) (by decide)⟩

/-- C1 as stated fails: in the image `hugeCountSegs` the superblock has
`ninodes = 2^31`, inode 0 is below `ninodes` and has the invalid type 7, yet
`check_inode_types` returns without reporting, because `(int)sb.ninodes` is negative
and the loop body never runs. -/
theorem check_inode_types_counterexample :
    (∃ i, i < (loaded hugeCountState).sb.ninodes
        ∧ ∃ d, inodeAt (loaded hugeCountState) i = some d ∧ BadType d)
    ∧ (check_inode_types (loaded hugeCountState)).stopped? = none :=
  ⟨⟨0, by decide, _, rfl, by decide⟩, by decide⟩

/-! ### C2 -/

/-- C2, amended: when inode 1 of the image is readable and is `d`, `check_root` returns
silently if and only if `d` has type `T_DIR` and both `lookup(d, ".")` and
`lookup(d, "..")` return 1; it stops with status 1 and the text
`ERROR: root directory does not exist.` in every other case in which the lookups it
evaluates return a value, in particular when the entry `.` is absent and the lookup
returns -1; when a lookup it evaluates does not return, the run ends by the fault of
that lookup. -/
theorem check_root_spec (s : State) (d : dinode) (hd : inodeAt s 1 = some d) :
    ((∃ u, check_root s = .ok () u) ↔
        d.type = T_DIR ∧ lookup s d dot = some 1 ∧ lookup s d dotdot = some 1)
    ∧ (check_root s = .stop (.exit 1 "ERROR: root directory does not exist.\n") ↔
        d.type ≠ T_DIR ∨ (∃ r, lookup s d dot = some r ∧ r ≠ 1)
          ∨ (lookup s d dot = some 1 ∧ ∃ r, lookup s d dotdot = some r ∧ r ≠ 1))
    ∧ (d.type = T_DIR → lookup s d dot = some (-1) →
        check_root s = .stop (.exit 1 "ERROR: root directory does not exist.\n"))
    ∧ (check_root s = .stop .fault ↔
        d.type = T_DIR ∧ (lookup s d dot = none
          ∨ (lookup s d dot = some 1 ∧ lookup s d dotdot = none))) := by
  obtain ⟨u, hu⟩ := check_root_cases s d hd
  rw [hu]
  generalize lookup s d dot = A
  generalize lookup s d dotdot = B
  by_cases ht : d.type = T_DIR
  · cases A with
    | none => simp [ht]
    | some r1 =>
      by_cases h1 : r1 = 1
      · cases B with
        | none => simp [ht, h1]
        | some r2 =>
          by_cases h2 : r2 = 1
          · simp [ht, h1, h2]
          · simp [ht, h1, h2]
      · simp [ht, h1]
  · simp [ht]

/-- The hypothesis of `check_root_spec` holds for the well-formed sample image. -/
theorem check_root_spec_witness :
    inodeAt (loaded goodState) 1 = some goodRoot
    ∧ ((∃ u, check_root (loaded goodState) = .ok () u) ↔
        goodRoot.type = T_DIR ∧ lookup (loaded goodState) goodRoot dot = some 1
          ∧ lookup (loaded goodState) goodRoot dotdot = some 1) :=
  ⟨by decide, (check_root_spec (loaded goodState) goodRoot (by decide)).1⟩

/-- C2 as stated fails: in the image `noDotSegs` the root has type `T_DIR`, the slot of
`.` in its block 4 is free and its second direct block, 1000, lies beyond the end of
the image, where nothing is mapped; the lookup of `.` does not return, so `check_root`
neither passes nor reports: the run is killed by the read of the unmapped block. -/
theorem check_root_counterexample :
    inodeAt (loaded noDotState) 1 = some noDotRoot
    ∧ noDotRoot.type = T_DIR
    ∧ noDotRoot.addr NDIRECT = 0
    ∧ (slotAt (loaded noDotState) 4 0).map (fun e => e.inum) = some 0
    ∧ (traverseDir (loaded noDotState) 4 dot).val? = some (-1)
    ∧ lookup (loaded noDotState) noDotRoot dot ≠ some 1
    ∧ (check_root (loaded noDotState)).stopped? = some .fault := by
  decide

/-! ### C3 -/

/-- C3, amended: for a superblock with `ninodes < 2^31` and an image in which the
inode records `0 .. ninodes-1` are readable and both lookups return for every
directory inode, `check_dir_format` stops with status 1 and the text
`ERROR: directory not properly formatted.` if and only if some inode `i < ninodes`
of type `T_DIR` has `lookup(i, ".")` different from `i` or `lookup(i, "..")` equal
to -1; otherwise it returns. -/
theorem check_dir_format_spec (s : State) (hn : s.sb.ninodes < 2 ^ 31)
    (hr : ∀ i, i < s.sb.ninodes → ∃ d, inodeAt s i = some d
      ∧ (d.type = T_DIR → (lookup s d dot).isSome ∧ (lookup s d dotdot).isSome)) :
    (check_dir_format s = .stop (.exit 1 "ERROR: directory not properly formatted.\n") ↔
        ∃ i, i < s.sb.ninodes ∧ ∃ d, inodeAt s i = some d ∧ d.type = T_DIR
          ∧ (lookup s d dot ≠ some (i : Int) ∨ lookup s d dotdot = some (-1)))
    ∧ ((¬ ∃ i, i < s.sb.ninodes ∧ ∃ d, inodeAt s i = some d ∧ d.type = T_DIR
          ∧ (lookup s d dot ≠ some (i : Int) ∨ lookup s d dotdot = some (-1))) →
        ∃ u, check_dir_format s = .ok () u)
    ∧ (∀ i d r, i < s.sb.ninodes → inodeAt s i = some d → d.type = T_DIR →
        lookup s d dot = some r → r ≠ (i : Int) →
        check_dir_format s = .stop (.exit 1 "ERROR: directory not properly formatted.\n"))
    ∧ ((∀ i d, i < s.sb.ninodes → inodeAt s i = some d → d.type ≠ T_DIR) →
        ∃ u, check_dir_format s = .ok () u) := by
  have key := check_dir_format_loop_spec s s.sb.ninodes 0 s rfl rfl
    (fun j _ h2 => hr j (by omega))
  have hiff : (∃ j, 0 ≤ j ∧ j < 0 + s.sb.ninodes ∧ ∃ d, inodeAt s j = some d ∧ d.type = T_DIR
        ∧ (lookup s d dot ≠ some (j : Int) ∨ lookup s d dotdot = some (-1))) ↔
      ∃ i, i < s.sb.ninodes ∧ ∃ d, inodeAt s i = some d ∧ d.type = T_DIR
        ∧ (lookup s d dot ≠ some (i : Int) ∨ lookup s d dotdot = some (-1)) := by
    constructor
    · rintro ⟨j, _, h2, h3⟩; exact ⟨j, by omega, h3⟩
    · rintro ⟨j, h2, h3⟩; exact ⟨j, by omega, by omega, h3⟩
  rw [hiff] at key
  have hrun : check_dir_format s = check_dir_format_loop s.sb.ninodes 0 s := by
    unfold check_dir_format
    rw [toInt_toNat_of_lt _ hn]
  rw [hrun]
  refine ⟨⟨?_, key.1⟩, key.2, ?_, ?_⟩
  · intro h
    by_contra hne
    obtain ⟨u, hu⟩ := key.2 hne
    rw [hu] at h
    cases h
  · intro i d r hi hd ht hl hne
    apply key.1
    refine ⟨i, hi, d, hd, ht, Or.inl ?_⟩
    rw [hl]
    intro h
    simp only [Option.some.injEq] at h
    exact hne h
  · intro hnodir
    apply key.2
    rintro ⟨i, hi, d, hd, ht, _⟩
    exact hnodir i d hi hd ht

/-- The hypotheses of `check_dir_format_spec` hold for the well-formed sample image. -/
theorem check_dir_format_spec_witness :
    (loaded goodState).sb.ninodes < 2 ^ 31
    ∧ (∀ i, i < (loaded goodState).sb.ninodes → ∃ d, inodeAt (loaded goodState) i = some d
        ∧ (d.type = T_DIR → (lookup (loaded goodState) d dot).isSome
            ∧ (lookup (loaded goodState) d dotdot).isSome))
    ∧ (check_dir_format (loaded goodState)
          = .stop (.exit 1 "ERROR: directory not properly formatted.\n") ↔
        ∃ i, i < (loaded goodState).sb.ninodes ∧ ∃ d, inodeAt (loaded goodState) i = some d
          ∧ d.type = T_DIR
          ∧ (lookup (loaded goodState) d dot ≠ some (i : Int)
              ∨ lookup (loaded goodState) d dotdot = some (-1))) :=
  have hn : (loaded goodState).sb.ninodes = 4 := by decide
  have hr : ∀ i, i < (loaded goodState).sb.ninodes → ∃ d, inodeAt (loaded goodState) i = some d
        ∧ (d.type = T_DIR → (lookup (loaded goodState) d dot).isSome
            ∧ (lookup (loaded goodState) d dotdot).isSome) := by
    intro i hi
    rw [hn] at hi
    interval_cases i
    · exact ⟨_, rfl, by decide⟩
    · exact ⟨_, rfl, by decide⟩
    · exact ⟨_, rfl, by decide⟩
    · exact ⟨_, rfl, by decide⟩
  ⟨by decide, hr, (check_dir_format_spec (loaded goodState) (by decide) hr).1⟩

/-- C3 as stated fails: in the image `hugeDirSegs` the superblock has
`ninodes = 2^31`, inode 0 is below `ninodes`, is a directory and has no entry `.`, yet
`check_dir_format` returns without reporting, because `(int)sb.ninodes` is negative
and the loop body never runs. -/
theorem check_dir_format_counterexample :
    (∃ i, i < (loaded hugeDirState).sb.ninodes ∧ ∃ d, inodeAt (loaded hugeDirState) i = some d
        ∧ d.type = T_DIR
        ∧ (lookup (loaded hugeDirState) d dot ≠ some (i : Int)
            ∨ lookup (loaded hugeDirState) d dotdot = some (-1)))
    ∧ (check_dir_format (loaded hugeDirState)).stopped? = none :=
  ⟨⟨0, by decide, _, rfl, by decide, Or.inl (by decide)⟩, by decide⟩

/-! ### C4 -/

/-- C4, amended: for a block number `addr < 2^23` whose 32 slots are readable,
`traverseDir(addr, name)` returns the inode number of the lowest-index slot of block
`addr` that is occupied (inode number not 0) and whose name matches, and it returns
-1 exactly when no slot is occupied with a matching name. -/
theorem traverseDir_spec (s : State) (addr : Nat) (name : List Byte) (ha : addr < 2 ^ 23)
    (hr : ∀ i, i < BSIZE / sizeof_dirent → (slotAt s addr i).isSome) :
    (∀ i e, i < BSIZE / sizeof_dirent → slotAt s addr i = some e → Matches name e →
        (∀ j f, j < i → slotAt s addr j = some f → ¬ Matches name f) →
        (traverseDir s addr name).val? = some (e.inum : Int))
    ∧ ((traverseDir s addr name).val? = some (-1) ↔
        ∀ i e, i < BSIZE / sizeof_dirent → slotAt s addr i = some e → ¬ Matches name e) := by
  have key := traverseDir_loop_spec
    { s with fsptr := s.map.addr + (addr * BSIZE) % 2 ^ 32 } name (BSIZE / sizeof_dirent) 0
  simp only [← slotAt_eq s addr _ ha] at key
  have hfirst : ∀ i e, i < BSIZE / sizeof_dirent → slotAt s addr i = some e → Matches name e →
        (∀ j f, j < i → slotAt s addr j = some f → ¬ Matches name f) →
        (traverseDir s addr name).val? = some (e.inum : Int) := by
    intro i e hi he hm hbefore
    apply key.2 i e (Nat.zero_le i) (by omega) he hm
    intro j _ hji
    obtain ⟨f, hf⟩ := Option.isSome_iff_exists.mp (hr j (by omega))
    exact ⟨f, hf, hbefore j f hji hf⟩
  refine ⟨hfirst, ?_, ?_⟩
  · intro hval i e hi he hm
    -- the first matching slot would be returned
    have hex : ∃ m, m < BSIZE / sizeof_dirent ∧ ∃ f, slotAt s addr m = some f ∧ Matches name f :=
      ⟨i, hi, e, he, hm⟩
    classical
    obtain ⟨hm1, f, hf, hfm⟩ := Nat.find_spec hex
    have hmin : ∀ j g, j < Nat.find hex → slotAt s addr j = some g → ¬ Matches name g := by
      intro j g hj hg hgm
      exact Nat.find_min hex hj ⟨by omega, g, hg, hgm⟩
    have := hfirst (Nat.find hex) f hm1 hf hfm hmin
    rw [hval] at this
    simp only [Option.some.injEq] at this
    omega
  · intro hnone
    apply key.1
    intro j _ hj
    obtain ⟨f, hf⟩ := Option.isSome_iff_exists.mp (hr j (by omega))
    exact ⟨f, hf, hnone j f (by omega) hf⟩

/-- The hypotheses of `traverseDir_spec` hold for the directory block of the
well-formed sample image. -/
theorem traverseDir_spec_witness :
    (4 : Nat) < 2 ^ 23
    ∧ (∀ i, i < BSIZE / sizeof_dirent → (slotAt (loaded goodState) 4 i).isSome)
    ∧ ((traverseDir (loaded goodState) 4 foo).val? = some (-1) ↔
        ∀ i e, i < BSIZE / sizeof_dirent → slotAt (loaded goodState) 4 i = some e →
          ¬ Matches foo e) :=
  ⟨by decide, by decide, (traverseDir_spec (loaded goodState) 4 foo (by decide) (by decide)).2⟩

/-- C4 as stated fails: in the image of `wrapState` every slot of block `2^23` has
the inode number 0, so no slot of that block matches, yet `traverseDir(2^23, "a")`
returns 7, because `addr * BSIZE` wraps to 0 in `unsigned int` and block 0 is read. -/
theorem traverseDir_counterexample :
    (∀ i, i < BSIZE / sizeof_dirent →
        (slotAt wrapState (2 ^ 23) i).map (fun e => e.inum) = some 0)
    ∧ (traverseDir wrapState (2 ^ 23) nameA).val? = some 7 :=
  ⟨by decide, by decide⟩

/-! ### C5 -/

/-- C6: the comparison `strncmp(name, buf.name, DIRSIZ) == 0` of `traverseDir` holds
if and only if the query cut at its first NUL or at `DIRSIZ` bytes equals the stored
name cut in the same way; an iteration of the loop returns the inode number of its
slot exactly when the slot is occupied and the cut names agree, and queries with
the same cut give the same result.  Hence bytes stored after the first NUL are
ignored, a stored name without NUL matches a query that agrees on its 14 bytes, and
`.` and `..` do not match each other. -/
theorem traverseDir_name_matching :
    (∀ name field : List Byte, strncmp name field DIRSIZ = 0 ↔ cstr name = cstr field)
    ∧ (∀ (t : State) (name : List Byte) (i : Nat) (e : dirent),
        (readBytes t.mem (t.fsptr + i * sizeof_dirent) sizeof_dirent).map decode_dirent = some e →
        ((traverseDir_loop t name 1 i).val? = some (e.inum : Int) ↔
          e.inum ≠ 0 ∧ cstr name = cstr e.name))
    ∧ (∀ (s : State) (addr : Nat) (name1 name2 : List Byte), cstr name1 = cstr name2 →
        traverseDir s addr name1 = traverseDir s addr name2)
    ∧ (∀ name pre junk1 junk2 : List Byte, (∀ b ∈ pre, b ≠ 0) →
        (strncmp name (pre ++ 0 :: junk1) DIRSIZ = 0 ↔ strncmp name (pre ++ 0 :: junk2) DIRSIZ = 0))
    ∧ (∀ field extra : List Byte, field.length = DIRSIZ → (∀ b ∈ field, b ≠ 0) →
        strncmp (field ++ extra) field DIRSIZ = 0)
    ∧ strncmp dot (dotdot ++ List.replicate 12 0) DIRSIZ ≠ 0
    ∧ strncmp dotdot (dot ++ List.replicate 13 0) DIRSIZ ≠ 0 := by
  refine ⟨strncmp_eq_zero_iff_cstr, ?_, ?_, ?_, ?_, by decide, by decide⟩
  · intro t name i e he
    rw [Option.map_eq_some'] at he
    obtain ⟨bs, hb, hdec⟩ := he
    unfold traverseDir_loop
    simp only [hb, hdec]
    rw [← strncmp_eq_zero_iff_cstr]
    by_cases h0 : e.inum = 0
    · simp [h0, traverseDir_loop, Run.val?]
    · by_cases hs : strncmp name e.name DIRSIZ = 0
      · simp [h0, hs, Run.val?]
      · simp only [h0, hs, if_false, traverseDir_loop, Run.val?, ne_eq, not_false_eq_true,
          and_false, iff_false, Option.some.injEq]
        omega
  · intro s addr name1 name2 h
    unfold traverseDir
    exact traverseDir_loop_name_congr _ name1 name2 h _ 0
  · intro name pre junk1 junk2 hpre
    rw [strncmp_eq_zero_iff_cstr, strncmp_eq_zero_iff_cstr, cstr_append_nul pre junk1 hpre,
      cstr_append_nul pre junk2 hpre]
  · intro field extra hlen hnz
    have h := cstr_of_full field [] hlen hnz
    rw [List.append_nil] at h
    rw [strncmp_eq_zero_iff_cstr, cstr_of_full field extra hlen hnz, h]

/-! ### C7 -/

/-- C7 fails on the code: `checkDirOfInode` reads the block numbers of the indirect
block at the absolute address `addrs[NDIRECT] * BSIZE`, not at that offset of the
image, so the lookup faults whenever nothing is mapped there.  In the image `indSegs`
the root has the indirect block 5, whose first entry is block 6, and block 6 holds
the entry (`bar`, 3) that no direct block contains; the run faults instead of
returning 3. -/
theorem checkDirOfInode_indirect_fault :
    (∀ (s : State) (d : dinode) (name : List Byte), d.addr NDIRECT ≠ 0 →
        (∀ k, k < NDIRECT → d.addr k ≠ 0 →
          (traverseDir s (d.addr k) name).val? = some (-1)) →
        s.mem ((d.addr NDIRECT * BSIZE) % 2 ^ 32) = none →
        checkDirOfInode s d name = .stop .fault)
    ∧ inodeAt indState 1 = some indRoot
    ∧ indRoot.addr NDIRECT = 5
    ∧ (∀ k, k < NDIRECT → indRoot.addr k ≠ 0 →
        (traverseDir indState (indRoot.addr k) bar).val? = some (-1))
    ∧ (imageBytes indState (5 * BSIZE + 4 * 0) 4).map (fun bs => u32At bs 0) = some 6
    ∧ (traverseDir indState 6 bar).val? = some 3
    ∧ (checkDirOfInode indState indRoot bar).stopped? = some .fault :=
  ⟨checkDirOfInode_indirect_unmapped, by decide⟩

/-! ### C8 -/

set_option maxRecDepth 100000 in
/-- C8 fails on the code: the indirect loop has no test for a zero entry, so that when
the first word it reads for the indirect block is 0 it searches block 0 of the image
and returns a match found there.  The indirect block of the root of `zeroSlotSegs`
holds only zeros and so do the words that `checkDirOfInode` reads for it, no direct
block contains `boot`, yet the lookup returns 9, the inode number of an entry that
only block 0 of the image holds. -/
theorem checkDirOfInode_zero_slot_searched :
    (∀ (s : State) (d : dinode) (name bs : List Byte) (r : Int), d.addr NDIRECT ≠ 0 →
        (∀ k, k < NDIRECT → d.addr k ≠ 0 →
          (traverseDir s (d.addr k) name).val? = some (-1)) →
        readBytes s.mem ((d.addr NDIRECT * BSIZE) % 2 ^ 32) sizeof_uint = some bs →
        u32At bs 0 = 0 →
        (traverseDir s 0 name).val? = some r → r ≠ -1 →
        lookup s d name = some r)
    ∧ inodeAt zeroSlotState 1 = some zeroSlotRoot
    ∧ zeroSlotRoot.addr NDIRECT = 12288
    ∧ (∀ i, i < NINDIRECT →
        (imageBytes zeroSlotState (12288 * BSIZE + 4 * i) 4).map (fun bs => u32At bs 0) = some 0)
    ∧ (∀ k, k < NDIRECT → zeroSlotRoot.addr k ≠ 0 →
        (traverseDir zeroSlotState (zeroSlotRoot.addr k) boot).val? = some (-1))
    ∧ (traverseDir zeroSlotState 0 boot).val? = some 9
    ∧ lookup zeroSlotState zeroSlotRoot boot = some 9 :=
  ⟨checkDirOfInode_indirect_zero_word, by decide⟩

/-! ### C9 -/

/-- C9: after the superblock copy `main` ends with the outcome of the first check
that stops, in the order `check_inode_types`, `check_root`, `check_dir_format`,
whatever the later checks would do; it ends with status 0 and no text exactly when
the three checks return; its output is at most one of the three diagnostics.  The
image `bothBadSegs`, with an invalid inode type and no root directory, reports only
`ERROR: bad inode.`. -/
theorem main_fail_fast (s s1 : State) (h : copy_superblock s = .ok () s1) :
    (∀ o, check_inode_types s1 = .stop o → main s = o)
    ∧ (∀ s2 o, check_inode_types s1 = .ok () s2 → check_root s2 = .stop o → main s = o)
    ∧ (∀ s2 s3 o, check_inode_types s1 = .ok () s2 → check_root s2 = .ok () s3 →
        check_dir_format s3 = .stop o → main s = o)
    ∧ (main s = .exit 0 "" ↔
        ∃ s2 s3 s4, check_inode_types s1 = .ok () s2 ∧ check_root s2 = .ok () s3
          ∧ check_dir_format s3 = .ok () s4)
    ∧ (main s = .exit 0 "" ∨ main s = .exit 1 "ERROR: bad inode.\n"
        ∨ main s = .exit 1 "ERROR: root directory does not exist.\n"
        ∨ main s = .exit 1 "ERROR: directory not properly formatted.\n"
        ∨ main s = .fault)
    ∧ (main bothBadState = .exit 1 "ERROR: bad inode.\n"
        ∧ (check_root (loaded bothBadState)).stopped?
            = some (.exit 1 "ERROR: root directory does not exist.\n")) := by
  unfold main
  rw [h]
  simp only
  refine ⟨?_, ?_, ?_, ?_, ?_, by decide⟩
  · intro o h1
    rw [h1]
  · intro s2 o h1 h2
    rw [h1]
    simp only
    rw [h2]
  · intro s2 s3 o h1 h2 h3
    rw [h1]
    simp only
    rw [h2]
    simp only
    rw [h3]
  · cases h1 : check_inode_types s1 with
    | stop o =>
      simp only
      constructor
      · intro ho
        have := check_inode_types_loop_stop _ _ _ _ h1
        rw [ho] at this
        rcases this with h' | h' <;> cases h'
      · rintro ⟨s2, s3, s4, h', _⟩; cases h'
    | ok v s2 =>
      simp only
      cases h2 : check_root s2 with
      | stop o =>
        simp only
        constructor
        · intro ho
          have := check_root_stop _ _ h2
          rw [ho] at this
          rcases this with h' | h' <;> cases h'
        · rintro ⟨t2, t3, t4, h', h'', _⟩
          cases h'
          rw [h2] at h''
          cases h''
      | ok v' s3 =>
        simp only
        cases h3 : check_dir_format s3 with
        | stop o =>
          simp only
          constructor
          · intro ho
            have := check_dir_format_loop_stop _ _ _ _ h3
            rw [ho] at this
            rcases this with h' | h' <;> cases h'
          · rintro ⟨t2, t3, t4, h', h'', h'''⟩
            cases h'
            rw [h2] at h''
            cases h''
            rw [h3] at h'''
            cases h'''
        | ok v'' s4 =>
          simp only
          constructor
          · intro _; exact ⟨s2, s3, s4, rfl, h2, h3⟩
          · intro _; trivial
  · cases h1 : check_inode_types s1 with
    | stop o =>
      simp only
      rcases check_inode_types_loop_stop _ _ _ _ h1 with h' | h'
      · right; left; exact h'
      · right; right; right; right; exact h'
    | ok v s2 =>
      simp only
      cases h2 : check_root s2 with
      | stop o =>
        simp only
        rcases check_root_stop _ _ h2 with h' | h'
        · right; right; left; exact h'
        · right; right; right; right; exact h'
      | ok v' s3 =>
        simp only
        cases h3 : check_dir_format s3 with
        | stop o =>
          simp only
          rcases check_dir_format_loop_stop _ _ _ _ h3 with h' | h'
          · right; right; right; left; exact h'
          · right; right; right; right; exact h'
        | ok v'' s4 =>
          left; trivial

/-- The hypothesis of `main_fail_fast` holds for the well-formed sample image. -/
theorem main_fail_fast_witness :
    copy_superblock goodState = .ok () (loaded goodState)
    ∧ (main goodState = .exit 0 "" ↔
        ∃ s2 s3 s4, check_inode_types (loaded goodState) = .ok () s2
          ∧ check_root s2 = .ok () s3 ∧ check_dir_format s3 = .ok () s4) :=
  ⟨rfl, (main_fail_fast goodState (loaded goodState) rfl).2.2.2.1⟩

/-! ### C10 -/

/-- C10: the image `goodSegs` has `ninodes = 4`, inode 0 unallocated, inode 1 a
directory whose data block holds exactly the entries (`.`, 1), (`..`, 1), (`foo`, 2),
inode 2 a regular file with `nlink = 1` and inode 3 unallocated; each of the three
checks returns on it and `main` ends with status 0 and no diagnostic. -/
theorem main_accepts_good_image :
    (loaded goodState).sb.ninodes = 4
    ∧ (inodeAt (loaded goodState) 0).map (fun d => d.type) = some 0
    ∧ inodeAt (loaded goodState) 1 = some goodRoot
    ∧ goodRoot.type = T_DIR
    ∧ slotAt (loaded goodState) 4 0 = some ⟨1, [46, 0, 0, 0, 0, 0, 0, 0, 0, 0, 0, 0, 0, 0]⟩
    ∧ slotAt (loaded goodState) 4 1 = some ⟨1, [46, 46, 0, 0, 0, 0, 0, 0, 0, 0, 0, 0, 0, 0]⟩
    ∧ slotAt (loaded goodState) 4 2 = some ⟨2, [102, 111, 111, 0, 0, 0, 0, 0, 0, 0, 0, 0, 0, 0]⟩
    ∧ (∀ i, i < BSIZE / sizeof_dirent → 3 ≤ i →
        (slotAt (loaded goodState) 4 i).map (fun e => e.inum) = some 0)
    ∧ (inodeAt (loaded goodState) 2).map (fun d => (d.type, d.nlink)) = some (T_FILE, 1)
    ∧ (inodeAt (loaded goodState) 3).map (fun d => d.type) = some 0
    ∧ (check_inode_types (loaded goodState)).stopped? = none
    ∧ (check_root (loaded goodState)).stopped? = none
    ∧ (check_dir_format (loaded goodState)).stopped? = none
    ∧ main goodState = .exit 0 "" := by
  decide

/-! ### C11 -/

/-- C11 fails on the code: `check_ref_count` is declared and never defined or called, and
`main` has no link-count diagnostic among its outputs.  In the image `linkSegs` inode 2
is a regular file with `nlink = 2`, the root is the only directory and its block holds
a single entry for inode 2, yet `main` ends with status 0 and no diagnostic. -/
theorem main_ignores_link_count :
    (∀ s : State, main s = .exit 0 "" ∨ main s = .exit 1 "ERROR: bad inode.\n"
        ∨ main s = .exit 1 "ERROR: root directory does not exist.\n"
        ∨ main s = .exit 1 "ERROR: directory not properly formatted.\n"
        ∨ main s = .fault)
    ∧ (loaded linkState).sb.ninodes = 4
    ∧ inodeTypes (loaded linkState) 4 = [some 0, some T_DIR, some T_FILE, some 0]
    ∧ (inodeAt (loaded linkState) 1).map (fun d => d.addrs)
        = some [4, 0, 0, 0, 0, 0, 0, 0, 0, 0, 0, 0, 0]
    ∧ blockTargets (loaded linkState) 4 = [1, 1, 2]
    ∧ (inodeAt (loaded linkState) 2).map (fun d => d.nlink) = some 2
    ∧ main linkState = .exit 0 "" :=
  ⟨main_outcome_cases, by decide⟩

/-! ### C12 -/

/-- C12 fails on the code: `check_inuse_marked_free` and `check_free_marked_inuse` are
declared and never defined or called, and `main` has no bitmap diagnostic among its
outputs.  In the image `bitmapSegs` block 4 is the only block an inode refers to; with
the bitmap byte 31 the bitmap agrees with the inodes, with 15 the bit of block 4 is 0
and with 63 the bit of the unreferenced block 5 is 1, yet `main` ends with status 0
and no diagnostic in all three cases. -/
theorem main_ignores_bitmap :
    (∀ s : State, main s = .exit 0 "" ∨ main s = .exit 1 "ERROR: bad inode.\n"
        ∨ main s = .exit 1 "ERROR: root directory does not exist.\n"
        ∨ main s = .exit 1 "ERROR: directory not properly formatted.\n"
        ∨ main s = .fault)
    ∧ (loaded (bitmapState 31)).sb.bmapstart = 3
    ∧ (∀ b, b ∈ [31, 15, 63] → (List.range 4).map
          (fun i => (inodeAt (loaded (bitmapState b)) i).map (fun d => (d.type, d.addrs)))
        = [some (0, [0, 0, 0, 0, 0, 0, 0, 0, 0, 0, 0, 0, 0]),
           some (T_DIR, [4, 0, 0, 0, 0, 0, 0, 0, 0, 0, 0, 0, 0]),
           some (T_FILE, [0, 0, 0, 0, 0, 0, 0, 0, 0, 0, 0, 0, 0]),
           some (0, [0, 0, 0, 0, 0, 0, 0, 0, 0, 0, 0, 0, 0])])
    ∧ (List.range 8).map (fun n => bitmapBit (loaded (bitmapState 31)) n)
        = [some true, some true, some true, some true, some true, some false, some false,
           some false]
    ∧ bitmapBit (loaded (bitmapState 15)) 4 = some false
    ∧ bitmapBit (loaded (bitmapState 63)) 5 = some true
    ∧ main (bitmapState 31) = .exit 0 ""
    ∧ main (bitmapState 15) = .exit 0 ""
    ∧ main (bitmapState 63) = .exit 0 "" :=
  ⟨main_outcome_cases, by decide⟩

/-! ### C13 -/

/-- C13 fails on the code: `check_direct_addr_once` and `check_indirect_addr_once` are
declared and never defined or called, and `main` has no duplicate-block diagnostic
among its outputs.  In the image `aliasSegs` the regular files 2 and 3 both have the
direct block 5, yet `main` ends with status 0 and no diagnostic. -/
theorem main_ignores_shared_block :
    (∀ s : State, main s = .exit 0 "" ∨ main s = .exit 1 "ERROR: bad inode.\n"
        ∨ main s = .exit 1 "ERROR: root directory does not exist.\n"
        ∨ main s = .exit 1 "ERROR: directory not properly formatted.\n"
        ∨ main s = .fault)
    ∧ (loaded aliasState).sb.ninodes = 4
    ∧ inodeTypes (loaded aliasState) 4 = [some 0, some T_DIR, some T_FILE, some T_FILE]
    ∧ (inodeAt (loaded aliasState) 2).map (fun d => d.addr 0) = some 5
    ∧ (inodeAt (loaded aliasState) 3).map (fun d => d.addr 0) = some 5
    ∧ main aliasState = .exit 0 "" :=
  ⟨main_outcome_cases, by decide⟩

/-! ### C14 -/

/-- C14 fails on the code: `check_marked_inuse_in_dir` is declared and never defined or
called, and `main` has no diagnostic for an unreachable inode among its outputs.  In
the image `orphanSegs` inode 2 is a regular file, the root is the only directory and
its block holds only the entries `.` and `..`, both for inode 1, yet `main` ends with
status 0 and no diagnostic. -/
theorem main_ignores_unreachable_inode :
    (∀ s : State, main s = .exit 0 "" ∨ main s = .exit 1 "ERROR: bad inode.\n"
        ∨ main s = .exit 1 "ERROR: root directory does not exist.\n"
        ∨ main s = .exit 1 "ERROR: directory not properly formatted.\n"
        ∨ main s = .fault)
    ∧ (loaded orphanState).sb.ninodes = 4
    ∧ inodeTypes (loaded orphanState) 4 = [some 0, some T_DIR, some T_FILE, some 0]
    ∧ (inodeAt (loaded orphanState) 1).map (fun d => d.addrs)
        = some [4, 0, 0, 0, 0, 0, 0, 0, 0, 0, 0, 0, 0]
    ∧ blockTargets (loaded orphanState) 4 = [1, 1]
    ∧ main orphanState = .exit 0 "" :=
  ⟨main_outcome_cases, by decide⟩

/-! ### C15 -/

/-- C15, amended: `main` copies the superblock from image offset `BSIZE` without
consulting the length of the image, also when the image is too short to contain it:
the verdict is the same whatever length `map` records, the copy succeeds on whatever
bytes are mapped there, the run is killed by a fault when one of them is not mapped,
and the only outputs of the run are the diagnostics of the three checks, none of
them a separate fatal condition. -/
theorem main_ignores_length :
    (∀ (s : State) (len : Nat),
        main { s with map := { s.map with length := len } } = main s)
    ∧ (∀ (s : State) (bs : List Byte),
        readBytes s.mem (s.map.addr + BSIZE) sizeof_superblock = some bs →
        copy_superblock s = .ok () { s with sb := decode_superblock bs })
    ∧ (∀ (s : State) (k : Nat), k < sizeof_superblock →
        s.mem (s.map.addr + BSIZE + k) = none → main s = .fault)
    ∧ (∀ s : State, main s = .exit 0 "" ∨ main s = .exit 1 "ERROR: bad inode.\n"
        ∨ main s = .exit 1 "ERROR: root directory does not exist.\n"
        ∨ main s = .exit 1 "ERROR: directory not properly formatted.\n"
        ∨ main s = .fault) := by
  refine ⟨?_, ?_, ?_, main_outcome_cases⟩
  · intro s len
    exact main_congr _ _ rfl rfl
  · intro s bs h
    unfold copy_superblock
    rw [h]
  · intro s k hk hun
    unfold main copy_superblock
    rw [readBytes_eq_none_of_unmapped s.mem sizeof_superblock (s.map.addr + BSIZE) k hk hun]

/-- C15 as stated fails: `shortState` is a file of 100 bytes, shorter than one block,
in a page whose rest is filled with zeros; the copy of the superblock succeeds on
bytes beyond the end of the image and `main` reports the violation of the root check. -/
theorem main_short_image_counterexample :
    shortState.map.length = 100
    ∧ shortState.map.length < BSIZE
    ∧ (copy_superblock shortState).stopped? = none
    ∧ main shortState = .exit 1 "ERROR: root directory does not exist.\n" := by
  decide

/-! ### C16 -/

/-- C17 fails on the code: `isValidDataBlock` ends with `return 0` also when no address
is out of range, so it returns 0 for every inode.  For the root inode of the
well-formed sample image, in a file system of 8 blocks, every address is 0 or lies
in the range from `ceil(8 / BPB) = 1` to 7, and the result is 0 all the same. -/
theorem isValidDataBlock_returns_zero :
    (∀ (s : State) (d : dinode), isValidDataBlock s d = .ok 0 s)
    ∧ (loaded goodState).sb.size = 8
    ∧ goodRoot.addrs = [4, 0, 0, 0, 0, 0, 0, 0, 0, 0, 0, 0, 0]
    ∧ (∀ a, a ∈ goodRoot.addrs → a = 0 ∨ ((8 + BPB - 1) / BPB ≤ a ∧ a ≤ 8 - 1))
    ∧ (isValidDataBlock (loaded goodState) goodRoot).val? = some 0 := by
  refine ⟨?_, by decide, by decide, by decide, by decide⟩
  intro s d
  unfold isValidDataBlock
  simp only
  split
  · rename_i v hv
    rw [isValidDataBlock_loop_zero _ _ _ _ _ _ hv]
  · rfl

/-! ### C18 -/

/-- C18, amended: every value returned by `traverseDir` is -1 or lies in 1..65535; hence
for a superblock with `ninodes < 2^31` and an image in which the inode records
`0 .. ninodes-1` are readable and both lookups return for every directory inode,
`check_dir_format` reports `ERROR: directory not properly formatted.` as soon as inode
0, or an inode numbered 65536 or higher, is below `ninodes` and has type `T_DIR`,
whatever its directory blocks contain. -/
theorem check_dir_format_unsatisfiable_dirs (s : State) (hn : s.sb.ninodes < 2 ^ 31)
    (hr : ∀ i, i < s.sb.ninodes → ∃ d, inodeAt s i = some d
      ∧ (d.type = T_DIR → (lookup s d dot).isSome ∧ (lookup s d dotdot).isSome)) :
    (∀ (t : State) (addr : Nat) (name : List Byte) (r : Int),
        (traverseDir t addr name).val? = some r → r = -1 ∨ (1 ≤ r ∧ r ≤ 65535))
    ∧ (∀ i d, i < s.sb.ninodes → (i = 0 ∨ 65536 ≤ i) → inodeAt s i = some d →
        d.type = T_DIR →
        check_dir_format s = .stop (.exit 1 "ERROR: directory not properly formatted.\n")) := by
  refine ⟨traverseDir_range, ?_⟩
  intro i d hi hrange hd ht
  have key := check_dir_format_loop_spec s s.sb.ninodes 0 s rfl rfl
    (fun j _ h2 => hr j (by omega))
  unfold check_dir_format
  rw [toInt_toNat_of_lt _ hn]
  apply key.1
  refine ⟨i, Nat.zero_le i, by omega, d, hd, ht, Or.inl ?_⟩
  intro hl
  rcases lookup_range s d dot _ hl with h | h
  · omega
  · rcases hrange with h0 | h0
    · subst h0
      simp at h
    · omega

/-- The hypotheses of `check_dir_format_unsatisfiable_dirs` hold for the image
`dirZeroSegs`, whose inode 0 is a directory, and the check reports. -/
theorem check_dir_format_unsatisfiable_dirs_witness :
    (loaded dirZeroState).sb.ninodes < 2 ^ 31
    ∧ (∀ i, i < (loaded dirZeroState).sb.ninodes → ∃ d, inodeAt (loaded dirZeroState) i = some d
        ∧ (d.type = T_DIR → (lookup (loaded dirZeroState) d dot).isSome
            ∧ (lookup (loaded dirZeroState) d dotdot).isSome))
    ∧ check_dir_format (loaded dirZeroState)
        = .stop (.exit 1 "ERROR: directory not properly formatted.\n") :=
  have hn : (loaded dirZeroState).sb.ninodes = 4 := by decide
  have hr : ∀ i, i < (loaded dirZeroState).sb.ninodes →
      ∃ d, inodeAt (loaded dirZeroState) i = some d
        ∧ (d.type = T_DIR → (lookup (loaded dirZeroState) d dot).isSome
            ∧ (lookup (loaded dirZeroState) d dotdot).isSome) := by
    intro i hi
    rw [hn] at hi
    interval_cases i
    · exact ⟨_, rfl, by decide⟩
    · exact ⟨_, rfl, by decide⟩
    · exact ⟨_, rfl, by decide⟩
    · exact ⟨_, rfl, by decide⟩
  ⟨by decide, hr,
    (check_dir_format_unsatisfiable_dirs (loaded dirZeroState) (by decide) hr).2 0 _
      (by decide) (Or.inl rfl) rfl (by decide)⟩

/-- C18 as stated fails: in the image `farDirSegs` the superblock has
`ninodes = 2^31 + 5`, the inodes 0 and 65536 are below `ninodes` and are directories,
yet `check_dir_format` returns without reporting, because `(int)sb.ninodes` is negative
and the loop body never runs. -/
theorem check_dir_format_unsatisfiable_dirs_counterexample :
    (0 < (loaded farDirState).sb.ninodes ∧ 65536 < (loaded farDirState).sb.ninodes)
    ∧ (inodeAt (loaded farDirState) 0).map (fun d => d.type) = some T_DIR
    ∧ (inodeAt (loaded farDirState) 65536).map (fun d => d.type) = some T_DIR
    ∧ (check_dir_format (loaded farDirState)).stopped? = none := by
  decide

/-! ### C19 -/

/-- C19: `traverseDir` sets `fsptr` to `map.addr + (addr * BSIZE) mod 2^32` and its value
depends only on the `BSIZE` image bytes at that offset, slot `i` being the 16 bytes at
offset `(addr * BSIZE) mod 2^32 + 16*i`; for `addr < 2^23` this is the image byte
offset `addr*512 + 16*i`, so that the value is determined by the slots of block `addr`,
and in general by the slots of block `addr mod 2^23`: `traverseDir(addr, name)` is
`traverseDir(addr mod 2^23, name)`, and a multiple of `2^23` is read as block 0. -/
theorem traverseDir_offset_wraps :
    (∀ (s u : State) (addr : Nat) (name : List Byte) (r : Int),
        traverseDir s addr name = .ok r u →
        u.fsptr = s.map.addr + (addr * 512) % 2 ^ 32)
    ∧ (∀ (s t : State) (addr : Nat) (name : List Byte), s.map.addr = t.map.addr →
        (∀ k, k < BSIZE →
          s.mem (s.map.addr + (addr * BSIZE) % 2 ^ 32 + k)
            = t.mem (s.map.addr + (addr * BSIZE) % 2 ^ 32 + k)) →
        (traverseDir s addr name).val? = (traverseDir t addr name).val?)
    ∧ (∀ (s : State) (addr i : Nat),
        readBytes s.mem (s.map.addr + (addr * BSIZE) % 2 ^ 32 + i * sizeof_dirent) sizeof_dirent
          = imageBytes s ((addr * 512) % 2 ^ 32 + 16 * i) 16)
    ∧ (∀ (s : State) (addr i : Nat), addr < 2 ^ 23 →
        readBytes s.mem (s.map.addr + (addr * BSIZE) % 2 ^ 32 + i * sizeof_dirent) sizeof_dirent
          = imageBytes s (addr * 512 + 16 * i) 16)
    ∧ (∀ (s t : State) (addr : Nat) (name : List Byte), addr < 2 ^ 23 →
        (∀ i, i < BSIZE / sizeof_dirent → slotAt s addr i = slotAt t addr i) →
        (traverseDir s addr name).val? = (traverseDir t addr name).val?)
    ∧ (∀ (s t : State) (addr : Nat) (name : List Byte),
        (∀ i, i < BSIZE / sizeof_dirent →
          slotAt s (addr % 2 ^ 23) i = slotAt t (addr % 2 ^ 23) i) →
        (traverseDir s addr name).val? = (traverseDir t addr name).val?)
    ∧ (∀ (s : State) (addr : Nat) (name : List Byte),
        traverseDir s addr name = traverseDir s (addr % 2 ^ 23) name)
    ∧ (∀ (s : State) (addr : Nat) (name : List Byte), addr % 2 ^ 23 = 0 →
        traverseDir s addr name = traverseDir s 0 name)
    ∧ ((traverseDir wrapState (2 ^ 23) nameA).val? = some 7
        ∧ (traverseDir wrapState 0 nameA).val? = some 7) := by
  refine ⟨?_, traverseDir_congr_block, ?_, ?_, ?_, traverseDir_congr_slots, ?_, ?_, by decide⟩
  · intro s u addr name r h
    rw [traverseDir_eq] at h
    revert h
    generalize (traverseDir s addr name).val? = v
    cases v with
    | none => intro h; cases h
    | some x =>
      intro h
      cases h
      rfl
  · intro s addr i
    unfold imageBytes
    have e : s.map.addr + (addr * BSIZE) % 2 ^ 32 + i * sizeof_dirent
        = s.map.addr + ((addr * 512) % 2 ^ 32 + 16 * i) := by
      unfold BSIZE sizeof_dirent
      omega
    rw [e]
    rfl
  · intro s addr i ha
    unfold imageBytes
    have e : s.map.addr + (addr * BSIZE) % 2 ^ 32 + i * sizeof_dirent
        = s.map.addr + (addr * 512 + 16 * i) := by
      unfold BSIZE sizeof_dirent
      omega
    rw [e]
    rfl
  · intro s t addr name ha h
    apply traverseDir_congr_slots
    rw [Nat.mod_eq_of_lt ha]
    exact h
  · intro s addr name
    unfold traverseDir
    have e : (addr % 2 ^ 23 * BSIZE) % 2 ^ 32 = (addr * BSIZE) % 2 ^ 32 := by
      unfold BSIZE
      omega
    rw [e]
  · intro s addr name h0
    unfold traverseDir
    have e : (addr * BSIZE) % 2 ^ 32 = (0 * BSIZE) % 2 ^ 32 := by
      unfold BSIZE
      omega
    rw [e]

/-! ### C20 -/

/-- C20: when the superblock has `ninodes >= 2^31` the bound `(int)sb.ninodes` is
negative: `check_inode_types` and `check_dir_format` return at once without reading an
inode or changing the state, and the verdict of `main` is that of `check_root`
alone.  The image `hugeOkSegs`, whose inode 2 has the invalid type 9, is accepted. -/
theorem checks_skipped_for_huge_count (s : State) (h1 : 2 ^ 31 ≤ s.sb.ninodes)
    (h2 : s.sb.ninodes < 2 ^ 32) :
    check_inode_types s = .ok () s
    ∧ check_dir_format s = .ok () s
    ∧ (∀ s0 : State, copy_superblock s0 = .ok () s →
        main s0 = match check_root s with
          | .stop o => o
          | .ok _ _ => .exit 0 "")
    ∧ ((∃ i, i < (loaded hugeOkState).sb.ninodes
          ∧ ∃ d, inodeAt (loaded hugeOkState) i = some d ∧ BadType d)
        ∧ main hugeOkState = .exit 0 "") := by
  have e1 : check_inode_types s = .ok () s := by
    unfold check_inode_types
    rw [toInt_toNat_of_ge _ h1 h2]
    rfl
  have e2 : ∀ u : State, u.sb = s.sb → check_dir_format u = .ok () u := by
    intro u hu
    unfold check_dir_format
    rw [hu, toInt_toNat_of_ge _ h1 h2]
    rfl
  refine ⟨e1, e2 s rfl, ?_, ⟨2, by decide, _, rfl, by decide⟩, by decide⟩
  intro s0 h0
  unfold main
  rw [h0]
  simp only
  rw [e1]
  simp only
  cases hc : check_root s with
  | stop o => rfl
  | ok v u =>
    simp only
    rw [e2 u (check_root_frame s u hc).2.2]

/-- The hypotheses of `checks_skipped_for_huge_count` hold for the image `hugeOkSegs`. -/
theorem checks_skipped_for_huge_count_witness :
    2 ^ 31 ≤ (loaded hugeOkState).sb.ninodes
    ∧ (loaded hugeOkState).sb.ninodes < 2 ^ 32
    ∧ check_inode_types (loaded hugeOkState) = .ok () (loaded hugeOkState)
    ∧ check_dir_format (loaded hugeOkState) = .ok () (loaded hugeOkState) :=
  ⟨by decide, by decide,
    (checks_skipped_for_huge_count (loaded hugeOkState) (by decide) (by decide)).1,
    (checks_skipped_for_huge_count (loaded hugeOkState) (by decide) (by decide)).2.1⟩

end Fcheck
